import Mathlib

/-!
# I2S streaming engine (`src/main.c`): embedding and verified properties

The C file drives a Zephyr I2S transmit channel.  Its functions talk to three
external services: the memory slab (`k_mem_slab_alloc`), the I2S driver
(`i2s_write`, `i2s_trigger`) and the global flag `i2s_running`.

Embedding:
* the return codes of the external calls are supplied by a response function
  `o : Nat → Int`: `o n` is the return code of the `n`-th external call
  (counted over the whole run, starting at `0`);
* the program state is the flag `i2s_running` and the number of external
  calls made so far;
* each function returns, besides its C return value and the new state, the
  list of events it performed, in program order;
* `BLOCK_SIZE` is `BUFFER_MAX_SIZE`, which is declared in `socket_util.h`;
  it is a parameter of the embedding;
* `len` is a `uint16_t`, block indices are `int`; for `len ≤ 65535` and a
  `BLOCK_SIZE` that fits an `int` no product `BLOCK_SIZE * curr_block_idx`
  evaluated by the code exceeds `65535 + BLOCK_SIZE`, so the arithmetic is
  done in `Nat`;
* the local handle array `tx_block[NUM_BLOCKS]` is not modelled as memory:
  the index used by each access is recorded in the events.  The source tests
  no index against `NUM_BLOCKS`, so an access with an index of `NUM_BLOCKS` or
  more goes beyond the array and the C program has no defined behaviour from
  there on.  The embedding agrees with the source on the runs whose indices
  are all below `NUM_BLOCKS`; these are the runs with
  `len ≤ NUM_BLOCKS * BLOCK_SIZE` (`i2s_send_data_within_tx_block`), and the
  theorems on what the block loop submits, copies or returns are stated under
  that bound (`i2s_send_data_index_bound` is about the bound itself);
* the `while` loop is a recursion on a fuel argument; `i2s_send_data` passes
  `len + 1`, which suffices whenever `BLOCK_SIZE` is positive
  (`send_loop_returns`, `i2s_send_data_returns`).  With `BLOCK_SIZE = 0` and
  `len > 0` the C loop does not terminate and the embedding yields `none`.
-/

namespace I2S

/-- A `uint8_t`. -/
abbrev Byte := Fin 256

/-- The errno value `EIO`. -/
def EIO : Int := 5

/-- The errno value `ENODEV`. -/
def ENODEV : Int := 19

/-- `#define NUM_BLOCKS 10`. -/
def NUM_BLOCKS : Nat := 10

/-- The commands passed to `i2s_trigger` in this file. -/
inductive TriggerCmd
  | START
  | PREPARE
  | DRAIN
  deriving DecidableEq, Repr

/-- What the code does to the outside world, in program order.
`alloc idx ret`: `k_mem_slab_alloc(&tx_0_mem_slab, &tx_block[idx], K_FOREVER)` returned `ret`.
`copy idx off n`: `memcpy(tx_block[idx], data + off, n)` after the block was zero-filled.
`write idx buf size ret`: `i2s_write(dev_i2s, tx_block[idx], size)` returned `ret`, the
block holding `buf` at the time of the call.
`trigger cmd ret`: `i2s_trigger(dev_i2s, I2S_DIR_TX, cmd)` returned `ret`. -/
inductive Event
  | alloc (idx : Nat) (ret : Int)
  | copy (idx : Nat) (off : Nat) (n : Nat)
  | write (idx : Nat) (buf : List Byte) (size : Nat) (ret : Int)
  | trigger (cmd : TriggerCmd) (ret : Int)
  deriving DecidableEq, Repr

/-- The program state: the global `i2s_running` and the number of external
calls answered so far. -/
structure State where
  i2s_running : Bool
  calls : Nat
  deriving DecidableEq, Repr

/-- The state after `k` more external calls. -/
def State.tick (s : State) (k : Nat) : State :=
  { s with calls := s.calls + k }

/-- The macro `MIN(a, b)`, `((a) < (b)) ? (a) : (b)`. -/
def MIN (a b : Nat) : Nat := if a < b then a else b

/-- The block after `memset(block, 0x00, n)`. -/
def memset (n : Nat) : List Byte := List.replicate n 0

/-- The destination after `memcpy(dst, src, n)`: the first `n` bytes come from `src`. -/
def memcpy (dst src : List Byte) (n : Nat) : List Byte :=
  src.take n ++ dst.drop n

/-- The content of `tx_block[idx]` after the `memset` and `memcpy` of `i2s_send_data`. -/
def fill (BLOCK_SIZE : Nat) (data : List Byte) (len idx : Nat) : List Byte :=
  memcpy (memset BLOCK_SIZE) (data.drop (BLOCK_SIZE * idx))
    (MIN (len - idx * BLOCK_SIZE) BLOCK_SIZE)

/-- Source `i2s_recover`: one `I2S_TRIGGER_PREPARE`, whose code is returned. -/
def i2s_recover (o : Nat → Int) (s : State) : Int × State × List Event :=
  let ret := o s.calls
  (ret, s.tick 1, [Event.trigger TriggerCmd.PREPARE ret])

/-- Source `i2s_drain_tx`.  The C function has no `return` on the path where the
DRAIN trigger succeeds, so the returned value is `none` there. -/
def i2s_drain_tx (o : Nat → Int) (s : State) : Option Int × State × List Event :=
  let ret := o s.calls
  let s1 : State := { i2s_running := false, calls := s.calls + 1 }
  if ret < 0 then
    let rec_ := i2s_recover o s1
    if rec_.1 < 0 then
      (some rec_.1, rec_.2.1, Event.trigger TriggerCmd.DRAIN ret :: rec_.2.2)
    else
      (some rec_.1, rec_.2.1, Event.trigger TriggerCmd.DRAIN ret :: rec_.2.2)
  else
    (none, s1, [Event.trigger TriggerCmd.DRAIN ret])

/-- Puts the events of the current iteration in front of those of the rest of the run. -/
def andThen (evs : List Event) (rest : Option (Int × State × List Event)) :
    Option (Int × State × List Event) :=
  rest.map (fun out => (out.1, out.2.1, evs ++ out.2.2))

/-- The `while (len > BLOCK_SIZE * curr_block_idx)` loop of `i2s_send_data`, with
`fuel` bounding the number of iterations (`none`: the bound was reached).
Each access to `tx_block[curr_block_idx]` is recorded with its index and not checked
against `NUM_BLOCKS`, as in the source: an event whose index is `NUM_BLOCKS` or more
stands for an access beyond the array, after which the source has no defined behaviour;
what the loop yields from there on says nothing about the C program. -/
def send_loop (o : Nat → Int) (BLOCK_SIZE : Nat) (data : List Byte) (len : Nat) :
    Nat → Nat → State → Option (Int × State × List Event)
  | 0, _, _ => none
  | fuel + 1, curr_block_idx, s =>
    if len > BLOCK_SIZE * curr_block_idx then
      -- k_mem_slab_alloc
      if o s.calls < 0 then
        some (o s.calls, s.tick 1, [Event.alloc curr_block_idx (o s.calls)])
      else
        let n := MIN (len - curr_block_idx * BLOCK_SIZE) BLOCK_SIZE
        let buf := fill BLOCK_SIZE data len curr_block_idx
        let pre := [Event.alloc curr_block_idx (o s.calls),
                    Event.copy curr_block_idx (BLOCK_SIZE * curr_block_idx) n,
                    Event.write curr_block_idx buf n (o (s.calls + 1))]
        -- i2s_write
        if o (s.calls + 1) = - EIO then
          -- i2s_recover
          if o (s.calls + 2) < 0 then
            some (o (s.calls + 2), s.tick 3,
              pre ++ [Event.trigger TriggerCmd.PREPARE (o (s.calls + 2))])
          -- i2s_write, second attempt
          else if o (s.calls + 3) < 0 then
            some (o (s.calls + 3), s.tick 4,
              pre ++ [Event.trigger TriggerCmd.PREPARE (o (s.calls + 2)),
                      Event.write curr_block_idx buf n (o (s.calls + 3))])
          -- i2s_trigger START
          else if o (s.calls + 4) < 0 then
            some (o (s.calls + 4), s.tick 5,
              pre ++ [Event.trigger TriggerCmd.PREPARE (o (s.calls + 2)),
                      Event.write curr_block_idx buf n (o (s.calls + 3)),
                      Event.trigger TriggerCmd.START (o (s.calls + 4))])
          else
            andThen
              (pre ++ [Event.trigger TriggerCmd.PREPARE (o (s.calls + 2)),
                       Event.write curr_block_idx buf n (o (s.calls + 3)),
                       Event.trigger TriggerCmd.START (o (s.calls + 4))])
              (send_loop o BLOCK_SIZE data len fuel (curr_block_idx + 1) (s.tick 5))
        else if o (s.calls + 1) < 0 then
          some (o (s.calls + 1), s.tick 2, pre)
        else
          andThen pre (send_loop o BLOCK_SIZE data len fuel (curr_block_idx + 1) (s.tick 2))
    else
      some (0, s, [])

/-- Source `i2s_send_data(data, len)`.  The loop gets `len + 1` iterations of fuel,
which is never used up when `BLOCK_SIZE` is positive (`i2s_send_data_returns`). -/
def i2s_send_data (o : Nat → Int) (BLOCK_SIZE : Nat) (data : List Byte) (len : Nat)
    (s : State) : Option (Int × State × List Event) :=
  if s.i2s_running = false then
    -- k_mem_slab_alloc
    if o s.calls < 0 then
      some (o s.calls, s.tick 1, [Event.alloc 0 (o s.calls)])
    else
      let n := MIN len BLOCK_SIZE
      let buf := memcpy (memset BLOCK_SIZE) data n
      let pre := [Event.alloc 0 (o s.calls), Event.copy 0 0 n,
                  Event.write 0 buf BLOCK_SIZE (o (s.calls + 1))]
      -- i2s_write
      if o (s.calls + 1) < 0 then
        some (o (s.calls + 1), s.tick 2, pre)
      -- i2s_trigger START
      else if o (s.calls + 2) < 0 then
        some (o (s.calls + 2), s.tick 3,
          pre ++ [Event.trigger TriggerCmd.START (o (s.calls + 2))])
      else
        andThen (pre ++ [Event.trigger TriggerCmd.START (o (s.calls + 2))])
          (send_loop o BLOCK_SIZE data len (len + 1) 1
            { i2s_running := true, calls := s.calls + 3 })
  else
    send_loop o BLOCK_SIZE data len (len + 1) 0 s

/-! ## Observations on event lists -/

/-- The return code of an external call (`copy` is not a call and has none). -/
def Event.ret? : Event → Option Int
  | Event.alloc _ r => some r
  | Event.copy _ _ _ => none
  | Event.write _ _ _ r => some r
  | Event.trigger _ r => some r

/-- An external call that returned a negative code. -/
def Event.failed (e : Event) : Bool :=
  match e.ret? with
  | some r => decide (r < 0)
  | none => false

/-- The index and the content of the block handed to `i2s_write`, if the event is a write. -/
def Event.written? : Event → Option (Nat × List Byte)
  | Event.write idx buf _ _ => some (idx, buf)
  | _ => none

/-- Is the event an `i2s_trigger` call with the given command. -/
def Event.isTrigger (c : TriggerCmd) : Event → Bool
  | Event.trigger c2 _ => decide (c2 = c)
  | _ => false

/-- The blocks submitted through `i2s_write`, in submission order, each with the
index `curr_block_idx` it was submitted under. -/
def writesOf (evs : List Event) : List (Nat × List Byte) := evs.filterMap Event.written?

/-- The contents of the blocks submitted through `i2s_write`, in submission order. -/
def blocksOf (evs : List Event) : List (List Byte) := (writesOf evs).map Prod.snd

/-- The number of calls of `i2s_trigger` with command `c`. -/
def triggerCount (c : TriggerCmd) (evs : List Event) : Nat := evs.countP (Event.isTrigger c)

/-- The external calls that returned a negative code, in program order. -/
def failuresOf (evs : List Event) : List Event := evs.filter Event.failed

/-- The number of blocks `ceil(len / BLOCK_SIZE)`. -/
def ceilDiv (len BLOCK_SIZE : Nat) : Nat := (len + BLOCK_SIZE - 1) / BLOCK_SIZE

/-- The number of blocks a call submits when nothing fails: the Idle branch always
submits block `0`, the loop submits the blocks below `ceilDiv len BLOCK_SIZE`. -/
def blockCount (running : Bool) (len BLOCK_SIZE : Nat) : Nat :=
  if running then ceilDiv len BLOCK_SIZE else max 1 (ceilDiv len BLOCK_SIZE)

/-- The payload slice of block `k`: `data[k*BLOCK_SIZE .. k*BLOCK_SIZE + n)` with
`n = min (len - k*BLOCK_SIZE) BLOCK_SIZE`. -/
def payloadSlice (BLOCK_SIZE : Nat) (data : List Byte) (len k : Nat) : List Byte :=
  (data.drop (k * BLOCK_SIZE)).take (min (len - k * BLOCK_SIZE) BLOCK_SIZE)

/-- The payload slice of block `k` followed by zero bytes up to `BLOCK_SIZE`. -/
def paddedSlice (BLOCK_SIZE : Nat) (data : List Byte) (len k : Nat) : List Byte :=
  payloadSlice BLOCK_SIZE data len k ++
    List.replicate (BLOCK_SIZE - min (len - k * BLOCK_SIZE) BLOCK_SIZE) 0

/-- The payload parts of the submitted blocks, concatenated in submission order: of
the `k`-th block its first `min (len - k*BLOCK_SIZE) BLOCK_SIZE` bytes, counting from `k`. -/
def payloadFrom (BLOCK_SIZE len : Nat) : Nat → List (List Byte) → List Byte
  | _, [] => []
  | k, b :: bs =>
    b.take (min (len - k * BLOCK_SIZE) BLOCK_SIZE) ++ payloadFrom BLOCK_SIZE len (k + 1) bs

/-- Is `e` a recover (`PREPARE`) that is directly followed by a write that succeeded. -/
def Event.retryOkAfter (e : Event) (rest : List Event) : Bool :=
  match e with
  | Event.trigger TriggerCmd.PREPARE _ =>
    match rest with
    | Event.write _ _ _ r :: _ => decide (0 ≤ r)
    | _ => false
  | _ => false

/-- The number of writes that were retried after a recover and succeeded. -/
def retriedOk : List Event → Nat
  | [] => 0
  | e :: rest => (if e.retryOkAfter rest then 1 else 0) + retriedOk rest

/-! ## The dispatch loop and startup -/

/-- The outcome of one
`k_msgq_get(&socket_recv_queue, &socket_receive, K_MSEC(I2S_TIMEOUT_MS))`:
`msg buf len` when it returned `0` and filled `socket_receive`, `timeout` when it
returned a non-zero code (no message within the timeout). -/
inductive Poll
  | msg (buf : List Byte) (len : Nat)
  | timeout
  deriving DecidableEq, Repr

/-- Source `i2s_data_handler`, run over a finite sequence of poll outcomes (the C loop
never ends).  A message is passed to `i2s_send_data`, whose return value is dropped; a
poll that yields no message leaves the inner `while`, calls `i2s_drain_tx` when
`i2s_running` is set (its return value is dropped too) and the outer `while (1)` polls
again. -/
def i2s_data_handler (o : Nat → Int) (BLOCK_SIZE : Nat) :
    List Poll → State → Option (State × List Event)
  | [], s => some (s, [])
  | Poll.msg buf len :: polls, s =>
    match i2s_send_data o BLOCK_SIZE buf len s with
    | none => none
    | some out =>
      (i2s_data_handler o BLOCK_SIZE polls out.2.1).map
        (fun fin => (fin.1, out.2.2 ++ fin.2))
  | Poll.timeout :: polls, s =>
    if s.i2s_running = true then
      (i2s_data_handler o BLOCK_SIZE polls (i2s_drain_tx o s).2.1).map
        (fun fin => (fin.1, (i2s_drain_tx o s).2.2 ++ fin.2))
    else
      i2s_data_handler o BLOCK_SIZE polls s

/-- The value `I2S_FMT_DATA_FORMAT_I2S` of the `format` field. -/
inductive I2sFormat
  | I2S_FMT_DATA_FORMAT_I2S
  deriving DecidableEq, Repr

/-- The option flags that `i2s_config` combines with `|`. -/
inductive I2sOpt
  | I2S_OPT_FRAME_CLK_MASTER
  | I2S_OPT_BIT_CLK_MASTER
  deriving DecidableEq, Repr

/-- The value `SYS_FOREVER_MS` of the `timeout` field. -/
inductive I2sTimeout
  | SYS_FOREVER_MS
  deriving DecidableEq, Repr

/-- The slab `&tx_0_mem_slab` of the `mem_slab` field. -/
inductive SlabRef
  | tx_0_mem_slab
  deriving DecidableEq, Repr

/-- The fields of `struct i2s_config` that `i2s_config` fills in; `options` lists the
flags that are or-ed together. -/
structure I2sConfig where
  word_size : Nat
  channels : Nat
  format : I2sFormat
  frame_clk_freq : Nat
  block_size : Nat
  timeout : I2sTimeout
  options : List I2sOpt
  mem_slab : SlabRef
  deriving DecidableEq, Repr

/-- Source `i2s_config`.  `device_is_ready` is the result of `device_is_ready(dev_i2s)`,
`i2s_configure cfg` the return code of `i2s_configure(dev_i2s, I2S_DIR_TX, &cfg)`.
Returns the C return value and the configurations passed to the driver, in order. -/
def i2s_config (BLOCK_SIZE : Nat) (device_is_ready : Bool) (i2s_configure : I2sConfig → Int) :
    Int × List I2sConfig :=
  if device_is_ready = false then
    (- ENODEV, [])
  else
    let i2s_cfg : I2sConfig :=
      { word_size := 16
        channels := 2
        format := I2sFormat.I2S_FMT_DATA_FORMAT_I2S
        frame_clk_freq := 44100
        block_size := BLOCK_SIZE
        timeout := I2sTimeout.SYS_FOREVER_MS
        options := [I2sOpt.I2S_OPT_FRAME_CLK_MASTER, I2sOpt.I2S_OPT_BIT_CLK_MASTER]
        mem_slab := SlabRef.tx_0_mem_slab }
    if i2s_configure i2s_cfg < 0 then
      (i2s_configure i2s_cfg, [i2s_cfg])
    else
      (0, [i2s_cfg])

/-- Source `main`: it calls `i2s_config()` as a statement, so the value returned is
dropped, and reaches its closing brace; it has no `return` statement, so it computes no
return value (`none`).  Returns that and the configurations passed to the driver. -/
def main (BLOCK_SIZE : Nat) (device_is_ready : Bool) (i2s_configure : I2sConfig → Int) :
    Option Int × List I2sConfig :=
  (none, (i2s_config BLOCK_SIZE device_is_ready i2s_configure).2)

/-! ## Further observations on event lists -/

/-- The index `curr_block_idx` with which an event accesses `tx_block[...]`. -/
def Event.idx? : Event → Option Nat
  | Event.alloc idx _ => some idx
  | Event.copy idx _ _ => some idx
  | Event.write idx _ _ _ => some idx
  | Event.trigger _ _ => none

/-- The indices used to access `tx_block[...]`, in program order. -/
def indicesOf (evs : List Event) : List Nat := evs.filterMap Event.idx?

/-- The `size` argument of an `i2s_write` call. -/
def Event.size? : Event → Option Nat
  | Event.write _ _ size _ => some size
  | _ => none

/-- The `size` arguments of the `i2s_write` calls, in program order. -/
def sizesOf (evs : List Event) : List Nat := evs.filterMap Event.size?

/-- An allocation that succeeded. -/
def Event.allocOk : Event → Bool
  | Event.alloc _ r => decide (0 ≤ r)
  | _ => false

/-- A write that the driver accepted. -/
def Event.writeOk : Event → Bool
  | Event.write _ _ _ r => decide (0 ≤ r)
  | _ => false

/-- The number of blocks obtained from the slab. -/
def okAllocs (evs : List Event) : Nat := evs.countP Event.allocOk

/-- The number of blocks accepted by `i2s_write`. -/
def okWrites (evs : List Event) : Nat := evs.countP Event.writeOk

/-- A call after which the block of the current iteration is held but not accepted:
a write that failed, or a recover that failed. -/
def Event.dropsBlock : Event → Bool
  | Event.write _ _ _ r => decide (r < 0)
  | Event.trigger TriggerCmd.PREPARE r => decide (r < 0)
  | _ => false

/-- Does the last event of the call leave its block unaccepted. -/
def endsDropping : List Event → Bool
  | [] => false
  | e :: rest => if rest.isEmpty then e.dropsBlock else endsDropping rest

/-! ## Shared lemmas -/

theorem andThen_eq_some {pre : List Event} {x : Option (Int × State × List Event)}
    {r : Int} {s' : State} {evs : List Event} :
    andThen pre x = some (r, s', evs) ↔ ∃ rest, x = some (r, s', rest) ∧ evs = pre ++ rest := by
  cases x with
  | none => simp [andThen]
  | some out =>
    obtain ⟨a, b, c⟩ := out
    simp only [andThen, Option.map_some', Option.some.injEq, Prod.mk.injEq]
    constructor
    · rintro ⟨rfl, rfl, rfl⟩; exact ⟨c, ⟨rfl, rfl, rfl⟩, rfl⟩
    · rintro ⟨rest, ⟨rfl, rfl, rfl⟩, rfl⟩; exact ⟨rfl, rfl, rfl⟩

theorem lt_ceilDiv_iff {BS : Nat} (hBS : 0 < BS) (len idx : Nat) :
    idx < ceilDiv len BS ↔ BS * idx < len := by
  unfold ceilDiv
  rw [Nat.lt_iff_add_one_le, Nat.le_div_iff_mul_le hBS]
  have : (idx + 1) * BS = BS * idx + BS := by ring
  rw [this]
  omega

theorem send_loop_returns {o : Nat → Int} {BS : Nat} (hBS : 0 < BS) (data : List Byte) (len : Nat) :
    ∀ (fuel idx : Nat) (s : State), len - BS * idx < fuel →
      ∃ out, send_loop o BS data len fuel idx s = some out := by
  intro fuel
  induction fuel with
  | zero => intro idx s h; omega
  | succ fuel ih =>
    intro idx s h
    have hstep : len > BS * idx → len - BS * (idx + 1) < fuel := by
      intro hg
      have : BS * (idx + 1) = BS * idx + BS := by ring
      omega
    simp only [send_loop]
    split_ifs with hg h1 h2 h3 h4 h5 h6
    all_goals first
      | exact ⟨_, rfl⟩
      | (obtain ⟨out, hout⟩ := ih (idx + 1) (s.tick 5) (hstep hg)
         rw [hout]; exact ⟨_, rfl⟩)
      | (obtain ⟨out, hout⟩ := ih (idx + 1) (s.tick 2) (hstep hg)
         rw [hout]; exact ⟨_, rfl⟩)

theorem range_blocks_cons {BS : Nat} (hBS : 0 < BS) {len idx : Nat} (hg : BS * idx < len) :
    List.range' idx (ceilDiv len BS - idx) =
      idx :: List.range' (idx + 1) (ceilDiv len BS - (idx + 1)) := by
  have h := (lt_ceilDiv_iff hBS len idx).2 hg
  have : ceilDiv len BS - idx = (ceilDiv len BS - (idx + 1)) + 1 := by omega
  rw [this, List.range'_succ]

theorem range_blocks_nil {BS : Nat} (hBS : 0 < BS) {len idx : Nat} (hg : ¬ BS * idx < len) :
    List.range' idx (ceilDiv len BS - idx) = [] := by
  have h := mt (lt_ceilDiv_iff hBS len idx).1 hg
  have : ceilDiv len BS - idx = 0 := by omega
  rw [this]; rfl

theorem send_loop_clean {o : Nat → Int} {BS : Nat} (hBS : 0 < BS) (data : List Byte) (len : Nat) :
    ∀ (fuel idx : Nat) (s : State) (r : Int) (s' : State) (evs : List Event),
      send_loop o BS data len fuel idx s = some (r, s', evs) → failuresOf evs = [] →
      r = 0 ∧
      writesOf evs = (List.range' idx (ceilDiv len BS - idx)).map
        (fun k => (k, fill BS data len k)) ∧
      triggerCount TriggerCmd.PREPARE evs = 0 ∧ triggerCount TriggerCmd.START evs = 0 := by
  intro fuel
  induction fuel with
  | zero => intro idx s r s' evs h; simp [send_loop] at h
  | succ fuel ih =>
    intro idx s r s' evs h hf
    simp only [send_loop] at h
    split_ifs at h with hg h1 h2 h3 h4 h5 h6
    · simp only [Option.some.injEq, Prod.mk.injEq] at h
      obtain ⟨-, -, rfl⟩ := h
      simp [failuresOf, Event.failed, Event.ret?, h1] at hf
    · simp only [Option.some.injEq, Prod.mk.injEq] at h
      obtain ⟨-, -, rfl⟩ := h
      simp [failuresOf, Event.failed, Event.ret?, h1, h2, h3, EIO] at hf
    · simp only [Option.some.injEq, Prod.mk.injEq] at h
      obtain ⟨-, -, rfl⟩ := h
      simp [failuresOf, Event.failed, Event.ret?, h1, h2, h3, EIO] at hf
    · simp only [Option.some.injEq, Prod.mk.injEq] at h
      obtain ⟨-, -, rfl⟩ := h
      simp [failuresOf, Event.failed, Event.ret?, h1, h2, h3, EIO] at hf
    · obtain ⟨rest, -, rfl⟩ := andThen_eq_some.1 h
      simp [failuresOf, Event.failed, Event.ret?, h1, h2, h3, EIO] at hf
    · simp only [Option.some.injEq, Prod.mk.injEq] at h
      obtain ⟨-, -, rfl⟩ := h
      simp [failuresOf, Event.failed, Event.ret?, h1, h6] at hf
    · obtain ⟨rest, hrest, rfl⟩ := andThen_eq_some.1 h
      have hf' : failuresOf rest = [] := by
        simpa [failuresOf, Event.failed, Event.ret?, h1, h6] using hf
      obtain ⟨hr, hw, hp, hs⟩ := ih _ _ _ _ _ hrest hf'
      refine ⟨hr, ?_, ?_, ?_⟩
      · rw [range_blocks_cons hBS hg]
        simp only [writesOf] at hw
        simp [writesOf, Event.written?, hw]
      · simpa [triggerCount, Event.isTrigger] using hp
      · simpa [triggerCount, Event.isTrigger] using hs
    · simp only [Option.some.injEq, Prod.mk.injEq] at h
      obtain ⟨rfl, -, rfl⟩ := h
      rw [range_blocks_nil hBS hg]
      simp [writesOf, triggerCount]

theorem send_loop_no_failures {o : Nat → Int} (hok : ∀ n, 0 ≤ o n) (BS : Nat) (data : List Byte)
    (len : Nat) :
    ∀ (fuel idx : Nat) (s : State) (r : Int) (s' : State) (evs : List Event),
      send_loop o BS data len fuel idx s = some (r, s', evs) → failuresOf evs = [] := by
  have hn : ∀ n, ¬ o n < 0 := fun n => not_lt.2 (hok n)
  have he : ∀ n, o n ≠ - EIO := fun n h => by have := hok n; rw [h] at this; simp [ EIO] at this
  intro fuel
  induction fuel with
  | zero => intro idx s r s' evs h; simp [send_loop] at h
  | succ fuel ih =>
    intro idx s r s' evs h
    simp only [send_loop, hn, he, if_false] at h
    split_ifs at h with hg
    · obtain ⟨rest, hrest, rfl⟩ := andThen_eq_some.1 h
      have := ih _ _ _ _ _ hrest
      simpa [failuresOf, Event.failed, Event.ret?, hn] using this
    · simp only [Option.some.injEq, Prod.mk.injEq] at h
      obtain ⟨-, -, rfl⟩ := h
      rfl

theorem fill_zero (BS : Nat) (data : List Byte) (len : Nat) :
    memcpy (memset BS) data (MIN len BS) = fill BS data len 0 := by
  simp [fill]

theorem range_blockCount_idle (n : Nat) :
    0 :: List.range' 1 (n - 1) = List.range (max 1 n) := by
  rw [List.range_eq_range']
  have : max 1 n = (n - 1) + 1 := by omega
  rw [this, List.range'_succ]

theorem i2s_send_data_clean {o : Nat → Int} {BS : Nat} (hBS : 0 < BS) (hok : ∀ n, 0 ≤ o n)
    (data : List Byte) (len : Nat) (s : State) :
    ∃ s' evs, i2s_send_data o BS data len s = some (0, s', evs) ∧
      writesOf evs = (List.range (blockCount s.i2s_running len BS)).map
        (fun k => (k, fill BS data len k)) := by
  have hn : ∀ n, ¬ o n < 0 := fun n => not_lt.2 (hok n)
  cases hrun : s.i2s_running with
  | false =>
    obtain ⟨⟨r, s', rest⟩, hout⟩ := send_loop_returns (o := o) hBS data len (len + 1) 1
      { i2s_running := true, calls := s.calls + 3 } (by omega)
    have hf := send_loop_no_failures hok BS data len _ _ _ _ _ _ hout
    obtain ⟨rfl, hw, -, -⟩ := send_loop_clean hBS data len _ _ _ _ _ _ hout hf
    refine ⟨s', [Event.alloc 0 (o s.calls), Event.copy 0 0 (MIN len BS),
      Event.write 0 (memcpy (memset BS) data (MIN len BS)) BS (o (s.calls + 1)),
      Event.trigger TriggerCmd.START (o (s.calls + 2))] ++ rest, ?_, ?_⟩
    · simp [i2s_send_data, hrun, hn, hout, andThen]
    · simp only [writesOf] at hw
      simp [writesOf, Event.written?, hw, blockCount, fill_zero,
        ← range_blockCount_idle]
  | true =>
    obtain ⟨⟨r, s', rest⟩, hout⟩ := send_loop_returns (o := o) hBS data len (len + 1) 0 s
      (by omega)
    have hf := send_loop_no_failures hok BS data len _ _ _ _ _ _ hout
    obtain ⟨rfl, hw, -, -⟩ := send_loop_clean hBS data len _ _ _ _ _ _ hout hf
    refine ⟨s', rest, ?_, ?_⟩
    · simp [i2s_send_data, hrun, hout]
    · simp [hw, blockCount, List.range_eq_range']
theorem MIN_eq_min (a b : Nat) : MIN a b = min a b := by
  unfold MIN
  split_ifs with h
  · exact (Nat.min_eq_left (Nat.le_of_lt h)).symm
  · exact (Nat.min_eq_right (Nat.le_of_not_lt h)).symm

theorem fill_eq_paddedSlice (BS : Nat) (data : List Byte) (len k : Nat) :
    fill BS data len k = paddedSlice BS data len k := by
  simp [fill, paddedSlice, payloadSlice, memcpy, memset, MIN_eq_min, Nat.mul_comm]

theorem payloadSlice_length {BS : Nat} {data : List Byte} {len : Nat} (hdata : len ≤ data.length)
    (k : Nat) : (payloadSlice BS data len k).length = min (len - k * BS) BS := by
  simp only [payloadSlice, List.length_take, List.length_drop]
  omega

theorem paddedSlice_length {BS : Nat} {data : List Byte} {len : Nat} (hdata : len ≤ data.length)
    (k : Nat) : (paddedSlice BS data len k).length = BS := by
  simp only [paddedSlice, List.length_append, payloadSlice_length hdata, List.length_replicate]
  omega

theorem paddedSlice_take {BS : Nat} {data : List Byte} {len : Nat} (hdata : len ≤ data.length)
    (k : Nat) :
    (paddedSlice BS data len k).take (min (len - k * BS) BS) = payloadSlice BS data len k := by
  have h := @payloadSlice_length BS data len hdata k
  rw [paddedSlice, ← h, List.take_left']
  rfl

theorem payloadSlice_append {BS : Nat} (data : List Byte) (len k : Nat) :
    payloadSlice BS data len k ++ (data.take len).drop ((k + 1) * BS) =
      (data.take len).drop (k * BS) := by
  have e : (k + 1) * BS = k * BS + BS := by ring
  simp only [payloadSlice, List.drop_take, e]
  by_cases h : len - k * BS ≤ BS
  · have h0 : len - (k * BS + BS) = 0 := by omega
    simp [h0, Nat.min_eq_left h]
  · have h1 : min (len - k * BS) BS = BS := Nat.min_eq_right (by omega)
    have h2 : len - k * BS = BS + (len - (k * BS + BS)) := by omega
    rw [h1]
    conv_rhs => rw [h2, List.take_add]
    simp [List.drop_drop, Nat.add_comm]

theorem payloadFrom_padded {BS : Nat} {data : List Byte} {len : Nat}
    (hdata : len ≤ data.length) :
    ∀ (m k : Nat), len ≤ (k + m) * BS →
      payloadFrom BS len k ((List.range' k m).map (paddedSlice BS data len)) =
        (data.take len).drop (k * BS) := by
  intro m
  induction m with
  | zero =>
    intro k h
    simp only [List.range', List.map_nil, payloadFrom]
    symm
    apply List.drop_eq_nil_of_le
    simp only [List.length_take]
    simp at h
    omega
  | succ m ih =>
    intro k h
    simp only [List.range'_succ, List.map_cons, payloadFrom]
    rw [ih (k + 1) (by rw [← Nat.add_assoc] at h; convert h using 2; ring),
      paddedSlice_take hdata, payloadSlice_append]

theorem le_ceilDiv_mul {BS : Nat} (hBS : 0 < BS) (len : Nat) : len ≤ ceilDiv len BS * BS := by
  by_contra h
  have h' : BS * ceilDiv len BS < len := by rw [Nat.mul_comm]; omega
  have := (lt_ceilDiv_iff hBS len (ceilDiv len BS)).2 h'
  omega

theorem blocksOf_of_writesOf {evs : List Event} {BS : Nat} {data : List Byte} {len : Nat}
    {l : List Nat} (h : writesOf evs = l.map (fun k => (k, fill BS data len k))) :
    blocksOf evs = l.map (paddedSlice BS data len) := by
  simp [blocksOf, h, fill_eq_paddedSlice]

theorem blockCount_eq {BS : Nat} (hBS : 0 < BS) (running : Bool) (len : Nat) :
    blockCount running len BS =
      if running = false ∧ len = 0 then 1 else ceilDiv len BS := by
  have h0 : len = 0 → ceilDiv len BS = 0 := by
    intro h
    have := mt (lt_ceilDiv_iff hBS len 0).1 (by omega)
    omega
  have h1 : len ≠ 0 → 1 ≤ ceilDiv len BS := by
    intro h
    have := (lt_ceilDiv_iff hBS len 0).2 (by omega)
    omega
  cases running
  · by_cases hl : len = 0
    · have := h0 hl
      simp only [blockCount, hl, and_self, if_true, Bool.false_eq_true, if_false]
      rw [hl] at this
      omega
    · have := h1 hl
      simp only [blockCount, hl, and_false, if_false, Bool.false_eq_true]
      omega
  · simp [blockCount]

theorem send_loop_index_lt {o : Nat → Int} (BS : Nat) (data : List Byte) (len : Nat) :
    ∀ (fuel idx : Nat) (s : State) (r : Int) (s' : State) (evs : List Event),
      send_loop o BS data len fuel idx s = some (r, s', evs) →
      ∀ i ∈ indicesOf evs, BS * i < len := by
  intro fuel
  induction fuel with
  | zero => intro idx s r s' evs h; simp [send_loop] at h
  | succ fuel ih =>
    intro idx s r s' evs h i hi
    simp only [send_loop] at h
    split_ifs at h with hg h1 h2 h3 h4 h5 h6
    all_goals first
      | (simp only [Option.some.injEq, Prod.mk.injEq] at h
         obtain ⟨-, -, rfl⟩ := h
         simp [indicesOf, Event.idx?] at hi
         try (subst hi; exact hg))
      | (obtain ⟨rest, hrest, rfl⟩ := andThen_eq_some.1 h
         have hr := ih _ _ _ _ _ hrest i
         simp only [indicesOf] at hr
         simp only [indicesOf, List.cons_append, List.nil_append, List.filterMap_cons,
           Event.idx?, List.mem_cons, or_self_left] at hi
         rcases hi with rfl | hm
         · exact hg
         · exact hr hm)

theorem i2s_send_data_within_tx_block {o : Nat → Int} {BS : Nat} {data : List Byte}
    {len : Nat} {s : State} {r : Int} {s' : State} {evs : List Event}
    (hlen : len ≤ NUM_BLOCKS * BS)
    (hrun : i2s_send_data o BS data len s = some (r, s', evs)) :
    ∀ i ∈ indicesOf evs, i < NUM_BLOCKS := by
  have key : ∀ i, BS * i < len → i < NUM_BLOCKS := by
    intro i hi
    by_contra hc
    have h1 := Nat.mul_le_mul_left BS (not_lt.1 hc)
    have h2 : NUM_BLOCKS * BS = BS * NUM_BLOCKS := Nat.mul_comm _ _
    omega
  intro i hi
  unfold i2s_send_data at hrun
  split_ifs at hrun with hidle h1 h2 h3
  · simp only [Option.some.injEq, Prod.mk.injEq] at hrun
    obtain ⟨-, -, rfl⟩ := hrun
    simp [indicesOf, Event.idx?] at hi
    subst hi; decide
  · simp only [Option.some.injEq, Prod.mk.injEq] at hrun
    obtain ⟨-, -, rfl⟩ := hrun
    simp [indicesOf, Event.idx?] at hi
    subst hi; decide
  · simp only [Option.some.injEq, Prod.mk.injEq] at hrun
    obtain ⟨-, -, rfl⟩ := hrun
    simp [indicesOf, Event.idx?] at hi
    subst hi; decide
  · obtain ⟨rest, hrest, rfl⟩ := andThen_eq_some.1 hrun
    have hr := send_loop_index_lt BS data len _ _ _ _ _ _ hrest i
    simp only [indicesOf] at hr
    simp only [indicesOf, List.cons_append, List.nil_append, List.filterMap_cons,
      Event.idx?, List.mem_cons, or_self_left] at hi
    rcases hi with rfl | hm
    · decide
    · exact key i (hr hm)
  · exact key i (send_loop_index_lt BS data len _ _ _ _ _ _ hrun i hi)

/-! ## C1 -/

/-- C1 (counterexample): with `BLOCK_SIZE = 64`, an Idle stream and `len = 0`, all calls
succeeding, `i2s_send_data` submits one block while `ceil(0 / 64) = 0`. -/
theorem i2s_send_data_block_count_idle_empty :
    (i2s_send_data (fun _ => 0) 64 [] 0 { i2s_running := false, calls := 0 }).map
      (fun out => (blocksOf out.2.2).length) = some 1 ∧ ceilDiv 0 64 = 0 := by
  decide

/-- C1 (amended): when `BLOCK_SIZE` is positive, `len ≤ NUM_BLOCKS * BLOCK_SIZE` and
every allocation and driver call succeeds, `i2s_send_data` returns `0`, every index it
uses is below `NUM_BLOCKS`, and the number of blocks it submits through `i2s_write` is
`ceil(len / BLOCK_SIZE)`, except for a call made while Idle with `len = 0`, which submits
one block. -/
theorem i2s_send_data_block_count (o : Nat → Int) (BLOCK_SIZE : Nat) (data : List Byte)
    (len : Nat) (s : State) (hBS : 0 < BLOCK_SIZE) (hlen : len ≤ NUM_BLOCKS * BLOCK_SIZE)
    (hok : ∀ n, 0 ≤ o n) :
    ∃ s' evs, i2s_send_data o BLOCK_SIZE data len s = some (0, s', evs) ∧
      (∀ i ∈ indicesOf evs, i < NUM_BLOCKS) ∧
      (blocksOf evs).length =
        if s.i2s_running = false ∧ len = 0 then 1 else ceilDiv len BLOCK_SIZE := by
  obtain ⟨s', evs, hrun, hw⟩ := i2s_send_data_clean hBS hok data len s
  refine ⟨s', evs, hrun, i2s_send_data_within_tx_block hlen hrun, ?_⟩
  rw [blocksOf_of_writesOf hw, List.length_map, List.length_range, blockCount_eq hBS]

/-- C1 (witness): the amended statement at `BLOCK_SIZE = 4`, `len = 10`, Idle. -/
theorem i2s_send_data_block_count_witness :
    ∃ s' evs, i2s_send_data (fun _ => 0) 4 [1, 2, 3, 4, 5, 6, 7, 8, 9, 10] 10
        { i2s_running := false, calls := 0 } = some (0, s', evs) ∧
      (∀ i ∈ indicesOf evs, i < NUM_BLOCKS) ∧
      (blocksOf evs).length = 3 :=
  i2s_send_data_block_count (fun _ => 0) 4 [1, 2, 3, 4, 5, 6, 7, 8, 9, 10] 10
    { i2s_running := false, calls := 0 } (by decide) (by decide) (fun _ => le_refl 0)

/-! ## C2 -/

/-- C2 (code at the failing input): with `BLOCK_SIZE = 1` and `len = 11`, every call
succeeding, the run accesses `tx_block` with index `10 = NUM_BLOCKS` (allocation, copy and
write of the 11th block), beyond the array of `NUM_BLOCKS` handles. -/
theorem i2s_send_data_payload_overrun :
    (i2s_send_data (fun _ => 0) 1 [1, 2, 3, 4, 5, 6, 7, 8, 9, 10, 11] 11
        { i2s_running := true, calls := 0 }).map
      (fun out => (indicesOf out.2.2).filter (fun i => decide (NUM_BLOCKS ≤ i))) =
      some [10, 10, 10] ∧ NUM_BLOCKS = 10 := by
  decide

/-- C2 (within the array): when `BLOCK_SIZE` is positive, `len ≤ NUM_BLOCKS * BLOCK_SIZE`,
`data` holds at least `len` bytes and every allocation and driver call succeeds, every
index used is below `NUM_BLOCKS` and the payload parts of the submitted blocks, taken in
submission order and concatenated, are the first `len` bytes of `data`. -/
theorem i2s_send_data_payload (o : Nat → Int) (BLOCK_SIZE : Nat) (data : List Byte)
    (len : Nat) (s : State) (hBS : 0 < BLOCK_SIZE) (hbound : len ≤ NUM_BLOCKS * BLOCK_SIZE)
    (hok : ∀ n, 0 ≤ o n) (hdata : len ≤ data.length) :
    ∃ s' evs, i2s_send_data o BLOCK_SIZE data len s = some (0, s', evs) ∧
      (∀ i ∈ indicesOf evs, i < NUM_BLOCKS) ∧
      payloadFrom BLOCK_SIZE len 0 (blocksOf evs) = data.take len := by
  obtain ⟨s', evs, hrun, hw⟩ := i2s_send_data_clean hBS hok data len s
  refine ⟨s', evs, hrun, i2s_send_data_within_tx_block hbound hrun, ?_⟩
  have hlen : len ≤ (0 + blockCount s.i2s_running len BLOCK_SIZE) * BLOCK_SIZE := by
    have h1 := le_ceilDiv_mul hBS len
    have h2 : ceilDiv len BLOCK_SIZE ≤ blockCount s.i2s_running len BLOCK_SIZE := by
      unfold blockCount; split_ifs <;> omega
    calc len ≤ ceilDiv len BLOCK_SIZE * BLOCK_SIZE := h1
      _ ≤ blockCount s.i2s_running len BLOCK_SIZE * BLOCK_SIZE := Nat.mul_le_mul_right _ h2
      _ = (0 + blockCount s.i2s_running len BLOCK_SIZE) * BLOCK_SIZE := by rw [Nat.zero_add]
  rw [blocksOf_of_writesOf hw, List.range_eq_range', payloadFrom_padded hdata _ 0 hlen]
  simp

/-- C2 (within the array, witness): the statement at `BLOCK_SIZE = 4`, `len = 10`,
Active. -/
theorem i2s_send_data_payload_witness :
    ∃ s' evs, i2s_send_data (fun _ => 0) 4 [1, 2, 3, 4, 5, 6, 7, 8, 9, 10, 11] 10
        { i2s_running := true, calls := 7 } = some (0, s', evs) ∧
      (∀ i ∈ indicesOf evs, i < NUM_BLOCKS) ∧
      payloadFrom 4 10 0 (blocksOf evs) = [1, 2, 3, 4, 5, 6, 7, 8, 9, 10] :=
  i2s_send_data_payload (fun _ => 0) 4 [1, 2, 3, 4, 5, 6, 7, 8, 9, 10, 11] 10
    { i2s_running := true, calls := 7 } (by decide) (by decide) (fun _ => le_refl 0)
    (by decide)

theorem send_loop_one_fault {o : Nat → Int} {BS : Nat} (hBS : 0 < BS) (data : List Byte)
    (len : Nat) :
    ∀ (fuel idx : Nat) (s : State) (r : Int) (s' : State) (evs : List Event)
      (k : Nat) (b : List Byte) (z : Nat),
      send_loop o BS data len fuel idx s = some (r, s', evs) →
      failuresOf evs = [Event.write k b z (- EIO)] →
      r = 0 ∧ idx ≤ k ∧ BS * k < len ∧ b = fill BS data len k ∧
      writesOf evs = (List.range' idx (k + 1 - idx) ++ List.range' k (ceilDiv len BS - k)).map
        (fun i => (i, fill BS data len i)) ∧
      triggerCount TriggerCmd.PREPARE evs = 1 := by
  intro fuel
  induction fuel with
  | zero => intro idx s r s' evs k b z h; simp [send_loop] at h
  | succ fuel ih =>
    intro idx s r s' evs k b z h hf
    simp only [send_loop] at h
    split_ifs at h with hg h1 h2 h3 h4 h5 h6
    · simp only [Option.some.injEq, Prod.mk.injEq] at h
      obtain ⟨-, -, rfl⟩ := h
      simp [failuresOf, Event.failed, Event.ret?, h1] at hf
    · simp only [Option.some.injEq, Prod.mk.injEq] at h
      obtain ⟨-, -, rfl⟩ := h
      simp [failuresOf, Event.failed, Event.ret?, h1, h2, h3, EIO] at hf
    · simp only [Option.some.injEq, Prod.mk.injEq] at h
      obtain ⟨-, -, rfl⟩ := h
      simp [failuresOf, Event.failed, Event.ret?, h1, h2, h3, h4, EIO] at hf
    · simp only [Option.some.injEq, Prod.mk.injEq] at h
      obtain ⟨-, -, rfl⟩ := h
      simp [failuresOf, Event.failed, Event.ret?, h1, h2, h3, h4, h5, EIO] at hf
    · obtain ⟨rest, hrest, rfl⟩ := andThen_eq_some.1 h
      have hf' : (idx = k ∧ fill BS data len idx = b ∧
          MIN (len - idx * BS) BS = z) ∧ failuresOf rest = [] := by
        simpa [failuresOf, Event.failed, Event.ret?, h1, h2, h3, h4, h5, EIO] using hf
      obtain ⟨⟨rfl, hb, -⟩, hnil⟩ := hf'
      obtain ⟨hr, hw, hp, -⟩ := send_loop_clean hBS data len _ _ _ _ _ _ hrest hnil
      refine ⟨hr, le_refl _, hg, hb.symm, ?_, ?_⟩
      · have e1 : idx + 1 - idx = 1 := by omega
        rw [e1, range_blocks_cons hBS hg]
        simp only [writesOf] at hw
        simp [writesOf, Event.written?, hw]
      · simp only [triggerCount] at hp
        simp [triggerCount, Event.isTrigger, hp]
    · simp only [Option.some.injEq, Prod.mk.injEq] at h
      obtain ⟨-, -, rfl⟩ := h
      have : idx = k ∧ fill BS data len idx = b ∧ MIN (len - idx * BS) BS = z ∧
          o (s.calls + 1) = - EIO := by
        simpa [failuresOf, Event.failed, Event.ret?, h1, h6] using hf
      exact absurd this.2.2.2 h2
    · obtain ⟨rest, hrest, rfl⟩ := andThen_eq_some.1 h
      have hf' : failuresOf rest = [Event.write k b z (- EIO)] := by
        simpa [failuresOf, Event.failed, Event.ret?, h1, h6] using hf
      obtain ⟨hr, hk, hlt, hb, hw, hp⟩ := ih _ _ _ _ _ _ _ _ hrest hf'
      refine ⟨hr, by omega, hlt, hb, ?_, ?_⟩
      · have e1 : k + 1 - idx = (k + 1 - (idx + 1)) + 1 := by omega
        rw [e1, List.range'_succ]
        simp only [writesOf] at hw
        simp [writesOf, Event.written?, hw]
      · simpa [triggerCount, Event.isTrigger] using hp
    · simp only [Option.some.injEq, Prod.mk.injEq] at h
      obtain ⟨-, -, rfl⟩ := h
      simp [failuresOf] at hf

theorem i2s_send_data_returns {o : Nat → Int} {BS : Nat} (hBS : 0 < BS) (data : List Byte)
    (len : Nat) (s : State) : ∃ out, i2s_send_data o BS data len s = some out := by
  unfold i2s_send_data
  split_ifs
  · exact ⟨_, rfl⟩
  · exact ⟨_, rfl⟩
  · exact ⟨_, rfl⟩
  · obtain ⟨out, hout⟩ := send_loop_returns (o := o) hBS data len (len + 1) 1
      { i2s_running := true, calls := s.calls + 3 } (by omega)
    rw [hout]; exact ⟨_, rfl⟩
  · exact send_loop_returns hBS data len (len + 1) 0 s (by omega)

/-! ## C3 -/

/-- C3 (code at the failing input): a 12-block send (`BLOCK_SIZE = 1`, `len = 12`, Idle)
whose only failing call is the first write of the 11th block (index `10`), with `-EIO`:
the run accesses `tx_block` with the indices `10` and `11`, beyond the array of
`NUM_BLOCKS = 10` handles, the first of them before the fault occurs. -/
theorem i2s_send_data_single_io_fault_overrun :
    (i2s_send_data (fun n => if n = 22 then -5 else 0) 1
        [1, 2, 3, 4, 5, 6, 7, 8, 9, 10, 11, 12] 12
        { i2s_running := false, calls := 0 }).map
      (fun out => (failuresOf out.2.2,
        (indicesOf out.2.2).filter (fun i => decide (NUM_BLOCKS ≤ i)))) =
      some ([Event.write 10 [11] 1 (- EIO)], [10, 10, 10, 10, 11, 11, 11]) ∧
    NUM_BLOCKS = 10 := by
  decide

/-- C3 (within the array): for a positive `BLOCK_SIZE` and
`len ≤ NUM_BLOCKS * BLOCK_SIZE`, `i2s_send_data` returns with every index below
`NUM_BLOCKS`, and whenever the only call that failed during it is one write, with `-EIO`,
on a block `k ≥ 1`: the return value is `0`, `i2s_recover` (the `PREPARE` trigger) was
called exactly once, block `k` exists and was submitted exactly twice, both times with the
padded payload slice `k` as content, and every block before and after it was submitted
once, in order, up to the last block. -/
theorem i2s_send_data_single_io_fault (o : Nat → Int) (BLOCK_SIZE : Nat) (data : List Byte)
    (len : Nat) (s : State) (k : Nat) (b : List Byte) (z : Nat)
    (hBS : 0 < BLOCK_SIZE) (hbound : len ≤ NUM_BLOCKS * BLOCK_SIZE) (hk : 1 ≤ k) :
    ∃ r s' evs, i2s_send_data o BLOCK_SIZE data len s = some (r, s', evs) ∧
      (∀ i ∈ indicesOf evs, i < NUM_BLOCKS) ∧
      (failuresOf evs = [Event.write k b z (- EIO)] →
        r = 0 ∧ triggerCount TriggerCmd.PREPARE evs = 1 ∧
        k < ceilDiv len BLOCK_SIZE ∧ b = paddedSlice BLOCK_SIZE data len k ∧
        writesOf evs =
          (List.range (k + 1) ++ List.range' k (ceilDiv len BLOCK_SIZE - k)).map
            (fun i => (i, paddedSlice BLOCK_SIZE data len i))) := by
  obtain ⟨⟨r, s', evs⟩, hrun⟩ := i2s_send_data_returns (o := o) hBS data len s
  refine ⟨r, s', evs, hrun, i2s_send_data_within_tx_block hbound hrun, ?_⟩
  intro hf
  have hfun : (fun i => (i, fill BLOCK_SIZE data len i)) =
      (fun i => (i, paddedSlice BLOCK_SIZE data len i)) := by
    funext i; rw [fill_eq_paddedSlice]
  unfold i2s_send_data at hrun
  split_ifs at hrun with hidle h1 h2 h3
  · simp only [Option.some.injEq, Prod.mk.injEq] at hrun
    obtain ⟨-, -, rfl⟩ := hrun
    simp [failuresOf, Event.failed, Event.ret?, h1] at hf
  · simp only [Option.some.injEq, Prod.mk.injEq] at hrun
    obtain ⟨-, -, rfl⟩ := hrun
    have : 0 = k := by
      have := hf
      simp [failuresOf, Event.failed, Event.ret?, h1, h2] at this
      exact this.1
    omega
  · simp only [Option.some.injEq, Prod.mk.injEq] at hrun
    obtain ⟨-, -, rfl⟩ := hrun
    simp [failuresOf, Event.failed, Event.ret?, h1, h2, h3] at hf
  · obtain ⟨rest, hrest, rfl⟩ := andThen_eq_some.1 hrun
    have hf' : failuresOf rest = [Event.write k b z (- EIO)] := by
      simpa [failuresOf, Event.failed, Event.ret?, h1, h2, h3] using hf
    obtain ⟨hr, hk1, hlt, hb, hw, hp⟩ :=
      send_loop_one_fault hBS data len _ _ _ _ _ _ _ _ _ hrest hf'
    refine ⟨hr, ?_, (lt_ceilDiv_iff hBS len k).2 hlt, by rw [hb, fill_eq_paddedSlice], ?_⟩
    · simpa [triggerCount, Event.isTrigger] using hp
    · have e1 : List.range (k + 1) = 0 :: List.range' 1 (k + 1 - 1) := by
        rw [List.range_eq_range', List.range'_succ]; simp
      rw [e1, ← hfun]
      simp only [writesOf] at hw
      simp [writesOf, Event.written?, hw, fill_zero]
  · obtain ⟨hr, hk1, hlt, hb, hw, hp⟩ :=
      send_loop_one_fault hBS data len _ _ _ _ _ _ _ _ _ hrun hf
    refine ⟨hr, hp, (lt_ceilDiv_iff hBS len k).2 hlt, by rw [hb, fill_eq_paddedSlice], ?_⟩
    rw [hw, hfun, List.range_eq_range']
    simp

/-- C3 (within the array, witness): a 3-block send (`BLOCK_SIZE = 4`, `len = 10`, Idle) whose 5th external
call, the write of the 2nd block, returns `-EIO`. -/
theorem i2s_send_data_single_io_fault_witness :
    ∃ s' evs, i2s_send_data (fun n => if n = 4 then -5 else 0) 4
        [1, 2, 3, 4, 5, 6, 7, 8, 9, 10] 10 { i2s_running := false, calls := 0 } =
          some (0, s', evs) ∧
      (∀ i ∈ indicesOf evs, i < NUM_BLOCKS) ∧
      failuresOf evs = [Event.write 1 [5, 6, 7, 8] 4 (- EIO)] ∧
      triggerCount TriggerCmd.PREPARE evs = 1 ∧
      writesOf evs =
        [(0, [1, 2, 3, 4]), (1, [5, 6, 7, 8]), (1, [5, 6, 7, 8]), (2, [9, 10, 0, 0])] := by
  obtain ⟨r, s', evs, hrun, hin, h⟩ := i2s_send_data_single_io_fault
    (fun n => if n = 4 then -5 else 0) 4 [1, 2, 3, 4, 5, 6, 7, 8, 9, 10] 10
    { i2s_running := false, calls := 0 } 1 [5, 6, 7, 8] 4 (by decide) (by decide)
    (by decide)
  have hc : (i2s_send_data (fun n => if n = 4 then -5 else 0) 4
      [1, 2, 3, 4, 5, 6, 7, 8, 9, 10] 10 { i2s_running := false, calls := 0 }).map
      (fun out => failuresOf out.2.2) = some [Event.write 1 [5, 6, 7, 8] 4 (- EIO)] := by
    decide
  rw [hrun] at hc
  have hf : failuresOf evs = [Event.write 1 [5, 6, 7, 8] 4 (- EIO)] := by simpa using hc
  obtain ⟨rfl, hp, -, -, hw⟩ := h hf
  exact ⟨s', evs, hrun, hin, hf, hp, hw.trans (by decide)⟩

theorem send_loop_running {o : Nat → Int} (BS : Nat) (data : List Byte) (len : Nat) :
    ∀ (fuel idx : Nat) (s : State) (r : Int) (s' : State) (evs : List Event),
      send_loop o BS data len fuel idx s = some (r, s', evs) →
      s'.i2s_running = s.i2s_running := by
  intro fuel
  induction fuel with
  | zero => intro idx s r s' evs h; simp [send_loop] at h
  | succ fuel ih =>
    intro idx s r s' evs h
    simp only [send_loop] at h
    split_ifs at h with hg h1 h2 h3 h4 h5 h6
    all_goals first
      | (simp only [Option.some.injEq, Prod.mk.injEq] at h
         obtain ⟨-, rfl, -⟩ := h
         rfl)
      | (obtain ⟨rest, hrest, -⟩ := andThen_eq_some.1 h
         exact (ih _ _ _ _ _ hrest).trans rfl)

theorem send_loop_abort {o : Nat → Int} (BS : Nat) (data : List Byte) (len : Nat) :
    ∀ (fuel idx : Nat) (s : State) (r : Int) (s' : State) (evs : List Event),
      send_loop o BS data len fuel idx s = some (r, s', evs) →
      (∀ k b z e post,
        (Event.write k b z (- EIO) :: Event.trigger TriggerCmd.PREPARE e :: post) <:+ evs →
        e < 0 → post = [] ∧ r = e) ∧
      (∀ k b z e0 k2 b2 z2 e post,
        (Event.write k b z (- EIO) :: Event.trigger TriggerCmd.PREPARE e0 ::
          Event.write k2 b2 z2 e :: post) <:+ evs →
        e < 0 → post = [] ∧ r = e) := by
  intro fuel
  induction fuel with
  | zero => intro idx s r s' evs h; simp [send_loop] at h
  | succ fuel ih =>
    intro idx s r s' evs h
    simp only [send_loop] at h
    split_ifs at h with hg h1 h2 h3 h4 h5 h6
    · simp only [Option.some.injEq, Prod.mk.injEq] at h
      obtain ⟨rfl, -, rfl⟩ := h
      constructor
      · intro k b z e post hsuf he
        simp [List.suffix_cons_iff] at hsuf
      · intro k b z e0 k2 b2 z2 e post hsuf he
        simp [List.suffix_cons_iff] at hsuf
    · simp only [Option.some.injEq, Prod.mk.injEq] at h
      obtain ⟨rfl, -, rfl⟩ := h
      constructor
      · intro k b z e post hsuf he
        simp [List.suffix_cons_iff] at hsuf
        obtain ⟨-, rfl, rfl⟩ := hsuf
        exact ⟨rfl, rfl⟩
      · intro k b z e0 k2 b2 z2 e post hsuf he
        simp [List.suffix_cons_iff] at hsuf
    · simp only [Option.some.injEq, Prod.mk.injEq] at h
      obtain ⟨rfl, -, rfl⟩ := h
      constructor
      · intro k b z e post hsuf he
        simp [List.suffix_cons_iff] at hsuf
        obtain ⟨-, rfl, -⟩ := hsuf
        exact absurd he h3
      · intro k b z e0 k2 b2 z2 e post hsuf he
        simp [List.suffix_cons_iff] at hsuf
        obtain ⟨-, -, ⟨-, -, -, rfl⟩, rfl⟩ := hsuf
        exact ⟨rfl, rfl⟩
    · simp only [Option.some.injEq, Prod.mk.injEq] at h
      obtain ⟨rfl, -, rfl⟩ := h
      constructor
      · intro k b z e post hsuf he
        simp [List.suffix_cons_iff] at hsuf
        obtain ⟨-, rfl, -⟩ := hsuf
        exact absurd he h3
      · intro k b z e0 k2 b2 z2 e post hsuf he
        simp [List.suffix_cons_iff] at hsuf
        obtain ⟨-, -, ⟨-, -, -, rfl⟩, -⟩ := hsuf
        exact absurd he h4
    · obtain ⟨rest, hrest, rfl⟩ := andThen_eq_some.1 h
      obtain ⟨ih1, ih2⟩ := ih _ _ _ _ _ hrest
      constructor
      · intro k b z e post hsuf he
        simp [List.suffix_cons_iff] at hsuf
        rcases hsuf with ⟨-, rfl, -⟩ | hs
        · exact absurd he h3
        · exact ih1 _ _ _ _ _ hs he
      · intro k b z e0 k2 b2 z2 e post hsuf he
        simp [List.suffix_cons_iff] at hsuf
        rcases hsuf with ⟨-, -, ⟨-, -, -, rfl⟩, -⟩ | hs
        · exact absurd he h4
        · exact ih2 _ _ _ _ _ _ _ _ _ hs he
    · simp only [Option.some.injEq, Prod.mk.injEq] at h
      obtain ⟨rfl, -, rfl⟩ := h
      constructor
      · intro k b z e post hsuf he
        simp [List.suffix_cons_iff] at hsuf
      · intro k b z e0 k2 b2 z2 e post hsuf he
        simp [List.suffix_cons_iff] at hsuf
    · obtain ⟨rest, hrest, rfl⟩ := andThen_eq_some.1 h
      obtain ⟨ih1, ih2⟩ := ih _ _ _ _ _ hrest
      constructor
      · intro k b z e post hsuf he
        simp [List.suffix_cons_iff] at hsuf
        rcases hsuf with ⟨⟨-, -, -, hw⟩, -⟩ | hs
        · exact absurd hw.symm h2
        · exact ih1 _ _ _ _ _ hs he
      · intro k b z e0 k2 b2 z2 e post hsuf he
        simp [List.suffix_cons_iff] at hsuf
        rcases hsuf with ⟨⟨-, -, -, hw⟩, -⟩ | hs
        · exact absurd hw.symm h2
        · exact ih2 _ _ _ _ _ _ _ _ _ hs he
    · simp only [Option.some.injEq, Prod.mk.injEq] at h
      obtain ⟨rfl, -, rfl⟩ := h
      constructor
      · intro k b z e post hsuf he
        simp at hsuf
      · intro k b z e0 k2 b2 z2 e post hsuf he
        simp at hsuf

theorem i2s_send_data_abort {o : Nat → Int} {BS : Nat} {data : List Byte} {len : Nat}
    {s : State} {r : Int} {s' : State} {evs : List Event}
    (hrun : i2s_send_data o BS data len s = some (r, s', evs)) :
    (∀ k b z e post,
      (Event.write k b z (- EIO) :: Event.trigger TriggerCmd.PREPARE e :: post) <:+ evs →
      e < 0 → (post = [] ∧ r = e) ∧ s'.i2s_running = true) ∧
    (∀ k b z e0 k2 b2 z2 e post,
      (Event.write k b z (- EIO) :: Event.trigger TriggerCmd.PREPARE e0 ::
        Event.write k2 b2 z2 e :: post) <:+ evs →
      e < 0 → post = [] ∧ r = e) := by
  unfold i2s_send_data at hrun
  split_ifs at hrun with hidle h1 h2 h3
  · simp only [Option.some.injEq, Prod.mk.injEq] at hrun
    obtain ⟨rfl, -, rfl⟩ := hrun
    constructor
    · intro k b z e post hsuf he
      simp [List.suffix_cons_iff] at hsuf
    · intro k b z e0 k2 b2 z2 e post hsuf he
      simp [List.suffix_cons_iff] at hsuf
  · simp only [Option.some.injEq, Prod.mk.injEq] at hrun
    obtain ⟨rfl, -, rfl⟩ := hrun
    constructor
    · intro k b z e post hsuf he
      simp [List.suffix_cons_iff] at hsuf
    · intro k b z e0 k2 b2 z2 e post hsuf he
      simp [List.suffix_cons_iff] at hsuf
  · simp only [Option.some.injEq, Prod.mk.injEq] at hrun
    obtain ⟨rfl, -, rfl⟩ := hrun
    constructor
    · intro k b z e post hsuf he
      simp [List.suffix_cons_iff] at hsuf
    · intro k b z e0 k2 b2 z2 e post hsuf he
      simp [List.suffix_cons_iff] at hsuf
  · obtain ⟨rest, hrest, rfl⟩ := andThen_eq_some.1 hrun
    obtain ⟨l1, l2⟩ := send_loop_abort BS data len _ _ _ _ _ _ hrest
    have hr := send_loop_running BS data len _ _ _ _ _ _ hrest
    constructor
    · intro k b z e post hsuf he
      simp [List.suffix_cons_iff] at hsuf
      exact ⟨l1 _ _ _ _ _ hsuf he, hr⟩
    · intro k b z e0 k2 b2 z2 e post hsuf he
      simp [List.suffix_cons_iff] at hsuf
      exact l2 _ _ _ _ _ _ _ _ _ hsuf he
  · obtain ⟨l1, l2⟩ := send_loop_abort BS data len _ _ _ _ _ _ hrun
    have hr := send_loop_running BS data len _ _ _ _ _ _ hrun
    constructor
    · intro k b z e post hsuf he
      refine ⟨l1 _ _ _ _ _ hsuf he, ?_⟩
      rw [hr]; simpa using hidle
    · intro k b z e0 k2 b2 z2 e post hsuf he
      exact l2 _ _ _ _ _ _ _ _ _ hsuf he

/-! ## C4 -/

/-- C4 (code at the failing input): a 12-block send (`BLOCK_SIZE = 1`, `len = 12`, Idle)
in which the first write of the 11th block (index `10`) returns `-EIO` and `i2s_recover`
then returns `-19`: the allocation, the copy and the write of that block access
`tx_block` with index `10 = NUM_BLOCKS`, beyond the array, before the fault is handled. -/
theorem i2s_send_data_abort_after_fault_overrun :
    (i2s_send_data (fun n => if n = 22 then -5 else if n = 23 then -19 else 0) 1
        [1, 2, 3, 4, 5, 6, 7, 8, 9, 10, 11, 12] 12
        { i2s_running := false, calls := 0 }).map
      (fun out => (out.1, out.2.2.drop 31)) =
      some (-19, [Event.alloc 10 0, Event.copy 10 10 1, Event.write 10 [11] 1 (- EIO),
        Event.trigger TriggerCmd.PREPARE (-19)]) ∧
    NUM_BLOCKS = 10 := by
  decide

/-- C4 (within the array): for a positive `BLOCK_SIZE` and
`len ≤ NUM_BLOCKS * BLOCK_SIZE`, `i2s_send_data` returns with every index below
`NUM_BLOCKS`, and (1) whenever a write that returned `-EIO` is followed by a recover
(`PREPARE`) that returned a negative code `e`, that recover is the last event of the call
and `e` is the return value; (2) whenever a write that returned `-EIO` is followed by a
recover and a retried write that returned a negative code `e`, that write is the last
event of the call and `e` is the return value.  So nothing is issued for that block or any
following block after the failing call. -/
theorem i2s_send_data_abort_after_fault (o : Nat → Int) (BLOCK_SIZE : Nat) (data : List Byte)
    (len : Nat) (s : State) (hBS : 0 < BLOCK_SIZE) (hbound : len ≤ NUM_BLOCKS * BLOCK_SIZE) :
    ∃ r s' evs, i2s_send_data o BLOCK_SIZE data len s = some (r, s', evs) ∧
      (∀ i ∈ indicesOf evs, i < NUM_BLOCKS) ∧
      (∀ pre k b z e post,
        evs = pre ++ Event.write k b z (- EIO) :: Event.trigger TriggerCmd.PREPARE e :: post →
        e < 0 → post = [] ∧ r = e) ∧
      (∀ pre k b z e0 k2 b2 z2 e post,
        evs = pre ++ Event.write k b z (- EIO) :: Event.trigger TriggerCmd.PREPARE e0 ::
          Event.write k2 b2 z2 e :: post →
        e < 0 → post = [] ∧ r = e) := by
  obtain ⟨⟨r, s', evs⟩, hrun⟩ := i2s_send_data_returns (o := o) hBS data len s
  obtain ⟨l1, l2⟩ := i2s_send_data_abort hrun
  refine ⟨r, s', evs, hrun, i2s_send_data_within_tx_block hbound hrun, ?_, ?_⟩
  · intro pre k b z e post hev he
    exact (l1 k b z e post ⟨pre, hev.symm⟩ he).1
  · intro pre k b z e0 k2 b2 z2 e post hev he
    exact l2 k b z e0 k2 b2 z2 e post ⟨pre, hev.symm⟩ he

/-- C4 (within the array, witness): a 3-block send (`BLOCK_SIZE = 4`, `len = 10`, Idle) in which the write
of the 2nd block returns `-EIO` and the retried write returns `-22`: the call returns
`-22` and issues nothing for the 3rd block. -/
theorem i2s_send_data_abort_after_fault_witness :
    ∃ s', i2s_send_data (fun n => if n = 4 then -5 else if n = 6 then -22 else 0) 4
        [1, 2, 3, 4, 5, 6, 7, 8, 9, 10] 10 { i2s_running := false, calls := 0 } =
      some (-22, s',
        [Event.alloc 0 0, Event.copy 0 0 4, Event.write 0 [1, 2, 3, 4] 4 0,
         Event.trigger TriggerCmd.START 0, Event.alloc 1 0, Event.copy 1 4 4] ++
        [Event.write 1 [5, 6, 7, 8] 4 (- EIO), Event.trigger TriggerCmd.PREPARE 0,
         Event.write 1 [5, 6, 7, 8] 4 (-22)]) := by
  obtain ⟨r, s', evs, hrun, -, -, h2⟩ := i2s_send_data_abort_after_fault
    (fun n => if n = 4 then -5 else if n = 6 then -22 else 0) 4
    [1, 2, 3, 4, 5, 6, 7, 8, 9, 10] 10 { i2s_running := false, calls := 0 } (by decide)
    (by decide)
  have hc : (i2s_send_data (fun n => if n = 4 then -5 else if n = 6 then -22 else 0) 4
      [1, 2, 3, 4, 5, 6, 7, 8, 9, 10] 10 { i2s_running := false, calls := 0 }).map
      (fun out => out.2.2) = some
        ([Event.alloc 0 0, Event.copy 0 0 4, Event.write 0 [1, 2, 3, 4] 4 0,
         Event.trigger TriggerCmd.START 0, Event.alloc 1 0, Event.copy 1 4 4] ++
        [Event.write 1 [5, 6, 7, 8] 4 (- EIO), Event.trigger TriggerCmd.PREPARE 0,
         Event.write 1 [5, 6, 7, 8] 4 (-22)]) := by
    decide
  rw [hrun] at hc
  simp only [Option.map_some', Option.some.injEq] at hc
  obtain ⟨-, hr⟩ := h2 _ _ _ _ _ _ _ _ _ _ hc (by decide)
  exact ⟨s', by rw [hrun, hr, hc]⟩

/-! ## C5 -/

/-- C5 (counterexample): a 3-block send (`BLOCK_SIZE = 4`, `len = 10`, Idle) in which the
write of the 2nd block returns `-EIO` and `i2s_recover` then returns `-19`:
`i2s_send_data` returns `-19` with `i2s_running` still true. -/
theorem i2s_send_data_recover_failure_stays_active :
    i2s_send_data (fun n => if n = 4 then -5 else if n = 5 then -19 else 0) 4
        [1, 2, 3, 4, 5, 6, 7, 8, 9, 10] 10 { i2s_running := false, calls := 0 } =
      some (-19, { i2s_running := true, calls := 6 },
        [Event.alloc 0 0, Event.copy 0 0 4, Event.write 0 [1, 2, 3, 4] 4 0,
         Event.trigger TriggerCmd.START 0, Event.alloc 1 0, Event.copy 1 4 4,
         Event.write 1 [5, 6, 7, 8] 4 (- EIO), Event.trigger TriggerCmd.PREPARE (-19)]) := by
  decide

/-- C5 (amended): for a positive `BLOCK_SIZE` and `len ≤ NUM_BLOCKS * BLOCK_SIZE`,
`i2s_send_data` returns with every index below `NUM_BLOCKS`, and whenever a write that
returned `-EIO` is followed by a recover (`PREPARE`) that returned a negative code,
`i2s_running` is true when `i2s_send_data` returns: the stream state stays Active. -/
theorem i2s_send_data_recover_failure_running (o : Nat → Int) (BLOCK_SIZE : Nat)
    (data : List Byte) (len : Nat) (s : State) (hBS : 0 < BLOCK_SIZE)
    (hbound : len ≤ NUM_BLOCKS * BLOCK_SIZE) :
    ∃ r s' evs, i2s_send_data o BLOCK_SIZE data len s = some (r, s', evs) ∧
      (∀ i ∈ indicesOf evs, i < NUM_BLOCKS) ∧
      ∀ pre k b z e post,
        evs = pre ++ Event.write k b z (- EIO) :: Event.trigger TriggerCmd.PREPARE e :: post →
        e < 0 → s'.i2s_running = true := by
  obtain ⟨⟨r, s', evs⟩, hrun⟩ := i2s_send_data_returns (o := o) hBS data len s
  refine ⟨r, s', evs, hrun, i2s_send_data_within_tx_block hbound hrun, ?_⟩
  intro pre k b z e post hev he
  exact ((i2s_send_data_abort hrun).1 k b z e post ⟨pre, hev.symm⟩ he).2

/-- C5 (witness): the amended statement on a send made while Active (`BLOCK_SIZE = 4`,
`len = 6`) whose first write returns `-EIO` and whose recover returns `-19`. -/
theorem i2s_send_data_recover_failure_running_witness :
    ∃ r s', i2s_send_data (fun n => if n = 1 then -5 else if n = 2 then -19 else 0) 4
        [1, 2, 3, 4, 5, 6] 6 { i2s_running := true, calls := 0 } =
      some (r, s', [Event.alloc 0 0, Event.copy 0 0 4] ++
        Event.write 0 [1, 2, 3, 4] 4 (- EIO) :: Event.trigger TriggerCmd.PREPARE (-19) :: []) ∧
      s'.i2s_running = true := by
  obtain ⟨r, s', evs, hrun, -, h⟩ := i2s_send_data_recover_failure_running
    (fun n => if n = 1 then -5 else if n = 2 then -19 else 0) 4
    [1, 2, 3, 4, 5, 6] 6 { i2s_running := true, calls := 0 } (by decide) (by decide)
  have hc : (i2s_send_data (fun n => if n = 1 then -5 else if n = 2 then -19 else 0) 4
      [1, 2, 3, 4, 5, 6] 6 { i2s_running := true, calls := 0 }).map (fun out => out.2.2) =
      some ([Event.alloc 0 0, Event.copy 0 0 4] ++
        Event.write 0 [1, 2, 3, 4] 4 (- EIO) :: Event.trigger TriggerCmd.PREPARE (-19) :: []) := by
    decide
  rw [hrun] at hc
  simp only [Option.map_some', Option.some.injEq] at hc
  exact ⟨r, s', by rw [hrun, hc], h _ _ _ _ _ _ hc (by decide)⟩

theorem send_loop_start_count {o : Nat → Int} (BS : Nat) (data : List Byte) (len : Nat) :
    ∀ (fuel idx : Nat) (s : State) (r : Int) (s' : State) (evs : List Event),
      send_loop o BS data len fuel idx s = some (r, s', evs) →
      triggerCount TriggerCmd.START evs = retriedOk evs := by
  intro fuel
  induction fuel with
  | zero => intro idx s r s' evs h; simp [send_loop] at h
  | succ fuel ih =>
    intro idx s r s' evs h
    simp only [send_loop] at h
    split_ifs at h with hg h1 h2 h3 h4 h5 h6
    · simp only [Option.some.injEq, Prod.mk.injEq] at h
      obtain ⟨-, -, rfl⟩ := h
      simp [triggerCount, retriedOk, Event.isTrigger, Event.retryOkAfter]
    · simp only [Option.some.injEq, Prod.mk.injEq] at h
      obtain ⟨-, -, rfl⟩ := h
      simp [triggerCount, retriedOk, Event.isTrigger, Event.retryOkAfter]
    · simp only [Option.some.injEq, Prod.mk.injEq] at h
      obtain ⟨-, -, rfl⟩ := h
      have h4' : ¬ 0 ≤ o (s.calls + 3) := not_le.2 h4
      simp [triggerCount, retriedOk, Event.isTrigger, Event.retryOkAfter, h4']
    · simp only [Option.some.injEq, Prod.mk.injEq] at h
      obtain ⟨-, -, rfl⟩ := h
      have h4' : 0 ≤ o (s.calls + 3) := not_lt.1 h4
      simp [triggerCount, retriedOk, Event.isTrigger, Event.retryOkAfter, h4']
    · obtain ⟨rest, hrest, rfl⟩ := andThen_eq_some.1 h
      have := ih _ _ _ _ _ hrest
      simp only [triggerCount] at this
      have h4' : 0 ≤ o (s.calls + 3) := not_lt.1 h4
      simp [triggerCount, retriedOk, Event.isTrigger, Event.retryOkAfter, this, h4']
      omega
    · simp only [Option.some.injEq, Prod.mk.injEq] at h
      obtain ⟨-, -, rfl⟩ := h
      simp [triggerCount, retriedOk, Event.isTrigger, Event.retryOkAfter]
    · obtain ⟨rest, hrest, rfl⟩ := andThen_eq_some.1 h
      have := ih _ _ _ _ _ hrest
      simp only [triggerCount] at this
      simp [triggerCount, retriedOk, Event.isTrigger, Event.retryOkAfter, this]
    · simp only [Option.some.injEq, Prod.mk.injEq] at h
      obtain ⟨-, -, rfl⟩ := h
      simp [triggerCount, retriedOk]

theorem send_loop_start_placement {o : Nat → Int} (BS : Nat) (data : List Byte) (len : Nat) :
    ∀ (fuel idx : Nat) (s : State) (r : Int) (s' : State) (evs : List Event),
      send_loop o BS data len fuel idx s = some (r, s', evs) →
      (∀ q post, evs ≠ Event.trigger TriggerCmd.START q :: post) ∧
      (∀ x q post, evs ≠ x :: Event.trigger TriggerCmd.START q :: post) ∧
      (∀ x y q post, (x :: y :: Event.trigger TriggerCmd.START q :: post) <:+ evs →
        ∃ e k b z w, x = Event.trigger TriggerCmd.PREPARE e ∧ y = Event.write k b z w ∧
          0 ≤ e ∧ 0 ≤ w) ∧
      (∀ e k b z w post,
        (Event.trigger TriggerCmd.PREPARE e :: Event.write k b z w :: post) <:+ evs →
        0 ≤ w → ∃ q post2, post = Event.trigger TriggerCmd.START q :: post2) := by
  intro fuel
  induction fuel with
  | zero => intro idx s r s' evs h; simp [send_loop] at h
  | succ fuel ih =>
    intro idx s r s' evs h
    simp only [send_loop] at h
    split_ifs at h with hg h1 h2 h3 h4 h5 h6
    · simp only [Option.some.injEq, Prod.mk.injEq] at h
      obtain ⟨-, -, rfl⟩ := h
      refine ⟨?_, ?_, ?_, ?_⟩
      · intro q post hc; simp at hc
      · intro x q post hc; simp at hc
      · intro x y q post hsuf
        simp [List.suffix_cons_iff] at hsuf
      · intro e k b z w post hsuf hw
        simp [List.suffix_cons_iff] at hsuf
    · simp only [Option.some.injEq, Prod.mk.injEq] at h
      obtain ⟨-, -, rfl⟩ := h
      refine ⟨?_, ?_, ?_, ?_⟩
      · intro q post hc; simp at hc
      · intro x q post hc; simp at hc
      · intro x y q post hsuf
        simp [List.suffix_cons_iff] at hsuf
      · intro e k b z w post hsuf hw
        simp [List.suffix_cons_iff] at hsuf
    · simp only [Option.some.injEq, Prod.mk.injEq] at h
      obtain ⟨-, -, rfl⟩ := h
      refine ⟨?_, ?_, ?_, ?_⟩
      · intro q post hc; simp at hc
      · intro x q post hc; simp at hc
      · intro x y q post hsuf
        simp [List.suffix_cons_iff] at hsuf
      · intro e k b z w post hsuf hw
        simp [List.suffix_cons_iff] at hsuf
        obtain ⟨-, ⟨-, -, -, rfl⟩, -⟩ := hsuf
        exact absurd hw (not_le.2 h4)
    · simp only [Option.some.injEq, Prod.mk.injEq] at h
      obtain ⟨-, -, rfl⟩ := h
      refine ⟨?_, ?_, ?_, ?_⟩
      · intro q post hc; simp at hc
      · intro x q post hc; simp at hc
      · intro x y q post hsuf
        simp [List.suffix_cons_iff] at hsuf
        obtain ⟨rfl, rfl, -, -⟩ := hsuf
        exact ⟨_, _, _, _, _, rfl, rfl, not_lt.1 h3, not_lt.1 h4⟩
      · intro e k b z w post hsuf hw
        simp [List.suffix_cons_iff] at hsuf
        obtain ⟨-, -, rfl⟩ := hsuf
        exact ⟨_, _, rfl⟩
    · obtain ⟨rest, hrest, rfl⟩ := andThen_eq_some.1 h
      obtain ⟨i1, i2, i3, i4⟩ := ih _ _ _ _ _ hrest
      refine ⟨?_, ?_, ?_, ?_⟩
      · intro q post hc; simp at hc
      · intro x q post hc; simp at hc
      · intro x y q post hsuf
        simp [List.suffix_cons_iff] at hsuf
        rcases hsuf with ⟨rfl, rfl, -, -⟩ | ⟨-, -, hc⟩ | ⟨-, hc⟩ | hs
        · exact ⟨_, _, _, _, _, rfl, rfl, not_lt.1 h3, not_lt.1 h4⟩
        · exact absurd hc.symm (i1 _ _)
        · exact absurd hc.symm (i2 _ _ _)
        · exact i3 _ _ _ _ hs
      · intro e k b z w post hsuf hw
        simp [List.suffix_cons_iff] at hsuf
        rcases hsuf with ⟨-, -, rfl⟩ | hs
        · exact ⟨_, _, rfl⟩
        · exact i4 _ _ _ _ _ _ hs hw
    · simp only [Option.some.injEq, Prod.mk.injEq] at h
      obtain ⟨-, -, rfl⟩ := h
      refine ⟨?_, ?_, ?_, ?_⟩
      · intro q post hc; simp at hc
      · intro x q post hc; simp at hc
      · intro x y q post hsuf
        simp [List.suffix_cons_iff] at hsuf
      · intro e k b z w post hsuf hw
        simp [List.suffix_cons_iff] at hsuf
    · obtain ⟨rest, hrest, rfl⟩ := andThen_eq_some.1 h
      obtain ⟨i1, i2, i3, i4⟩ := ih _ _ _ _ _ hrest
      refine ⟨?_, ?_, ?_, ?_⟩
      · intro q post hc; simp at hc
      · intro x q post hc; simp at hc
      · intro x y q post hsuf
        simp [List.suffix_cons_iff] at hsuf
        rcases hsuf with ⟨-, -, hc⟩ | ⟨-, hc⟩ | hs
        · exact absurd hc.symm (i1 _ _)
        · exact absurd hc.symm (i2 _ _ _)
        · exact i3 _ _ _ _ hs
      · intro e k b z w post hsuf hw
        simp [List.suffix_cons_iff] at hsuf
        exact i4 _ _ _ _ _ _ hsuf hw
    · simp only [Option.some.injEq, Prod.mk.injEq] at h
      obtain ⟨-, -, rfl⟩ := h
      refine ⟨?_, ?_, ?_, ?_⟩
      · intro q post hc; simp at hc
      · intro x q post hc; simp at hc
      · intro x y q post hsuf
        simp at hsuf
      · intro e k b z w post hsuf hw
        simp at hsuf

theorem start_follows_retry {rest : List Event}
    (i1 : ∀ q post, rest ≠ Event.trigger TriggerCmd.START q :: post)
    (i2 : ∀ x q post, rest ≠ x :: Event.trigger TriggerCmd.START q :: post)
    (i3 : ∀ x y q post, (x :: y :: Event.trigger TriggerCmd.START q :: post) <:+ rest →
      ∃ e k b z w, x = Event.trigger TriggerCmd.PREPARE e ∧ y = Event.write k b z w ∧
        0 ≤ e ∧ 0 ≤ w) :
    ∀ pre q post, rest = pre ++ Event.trigger TriggerCmd.START q :: post →
      ∃ pre2 e k b z w,
        pre = pre2 ++ [Event.trigger TriggerCmd.PREPARE e, Event.write k b z w] ∧
        0 ≤ e ∧ 0 ≤ w := by
  intro pre q post hrest
  rcases List.eq_nil_or_concat pre with rfl | ⟨pre1, y, rfl⟩
  · exact absurd hrest (i1 q post)
  · rcases List.eq_nil_or_concat pre1 with rfl | ⟨pre2, x, rfl⟩
    · exact absurd hrest (i2 y q post)
    · simp only [List.concat_eq_append, List.append_assoc, List.singleton_append] at hrest
      obtain ⟨e, k, b, z, w, rfl, rfl, he, hw⟩ := i3 x y q post ⟨pre2, hrest.symm⟩
      exact ⟨pre2, e, k, b, z, w, by simp, he, hw⟩

/-! ## C6 -/

/-- C6 (counterexample): a 3-block send made while Idle (`BLOCK_SIZE = 4`, `len = 10`)
whose first write succeeds and whose write of the 2nd block returns `-EIO` once: two
START triggers are issued during the call. -/
theorem i2s_send_data_idle_two_starts :
    (i2s_send_data (fun n => if n = 4 then -5 else 0) 4
        [1, 2, 3, 4, 5, 6, 7, 8, 9, 10] 10 { i2s_running := false, calls := 0 }).map
      (fun out => (out.1, triggerCount TriggerCmd.START out.2.2)) = some (0, 2) := by
  decide

/-- C6 (amended): for a positive `BLOCK_SIZE` and `len ≤ NUM_BLOCKS * BLOCK_SIZE`, a call
made while Idle whose allocation and first write succeed returns, whatever the later
outcomes are, and every index it uses is below `NUM_BLOCKS`.  Its first four events are
the allocation, the copy, the write of block `0` and a START trigger.  Among the events
after these, every START trigger comes directly after a write that succeeded and that
itself comes directly after a recover (`PREPARE`) that succeeded; every write that comes
directly after a recover and succeeded is directly followed by a START trigger; so the
number of further START triggers is the number of such retried writes. -/
theorem i2s_send_data_idle_start_count (o : Nat → Int) (BLOCK_SIZE : Nat) (data : List Byte)
    (len : Nat) (s : State) (hBS : 0 < BLOCK_SIZE) (hlen : len ≤ NUM_BLOCKS * BLOCK_SIZE)
    (hidle : s.i2s_running = false)
    (halloc : 0 ≤ o s.calls) (hwrite : 0 ≤ o (s.calls + 1)) :
    ∃ r s' evs rest, i2s_send_data o BLOCK_SIZE data len s = some (r, s', evs) ∧
      evs = Event.alloc 0 (o s.calls) :: Event.copy 0 0 (min len BLOCK_SIZE) ::
          Event.write 0 (paddedSlice BLOCK_SIZE data len 0) BLOCK_SIZE (o (s.calls + 1)) ::
          Event.trigger TriggerCmd.START (o (s.calls + 2)) :: rest ∧
      (∀ i ∈ indicesOf evs, i < NUM_BLOCKS) ∧
      (∀ pre q post, rest = pre ++ Event.trigger TriggerCmd.START q :: post →
        ∃ pre2 e k b z w,
          pre = pre2 ++ [Event.trigger TriggerCmd.PREPARE e, Event.write k b z w] ∧
          0 ≤ e ∧ 0 ≤ w) ∧
      (∀ pre e k b z w post,
        rest = pre ++ Event.trigger TriggerCmd.PREPARE e :: Event.write k b z w :: post →
        0 ≤ w → ∃ q post2, post = Event.trigger TriggerCmd.START q :: post2) ∧
      triggerCount TriggerCmd.START rest = retriedOk rest := by
  have h1 : ¬ o s.calls < 0 := not_lt.2 halloc
  have h2 : ¬ o (s.calls + 1) < 0 := not_lt.2 hwrite
  have hb : memcpy (memset BLOCK_SIZE) data (min len BLOCK_SIZE) =
      paddedSlice BLOCK_SIZE data len 0 := by
    rw [← MIN_eq_min, fill_zero, fill_eq_paddedSlice]
  by_cases h3 : o (s.calls + 2) < 0
  · have hrun : i2s_send_data o BLOCK_SIZE data len s = some (o (s.calls + 2), s.tick 3,
        Event.alloc 0 (o s.calls) :: Event.copy 0 0 (min len BLOCK_SIZE) ::
          Event.write 0 (paddedSlice BLOCK_SIZE data len 0) BLOCK_SIZE (o (s.calls + 1)) ::
          Event.trigger TriggerCmd.START (o (s.calls + 2)) :: []) := by
      simp [i2s_send_data, hidle, h1, h2, h3, hb, MIN_eq_min]
    refine ⟨_, _, _, [], hrun, rfl, i2s_send_data_within_tx_block hlen hrun, ?_, ?_, rfl⟩
    · intro pre q post hc
      simp at hc
    · intro pre e k b z w post hc
      simp at hc
  · obtain ⟨⟨r, s', rest⟩, hout⟩ := send_loop_returns (o := o) hBS data len (len + 1) 1
      { i2s_running := true, calls := s.calls + 3 } (by omega)
    have hrun : i2s_send_data o BLOCK_SIZE data len s = some (r, s',
        Event.alloc 0 (o s.calls) :: Event.copy 0 0 (min len BLOCK_SIZE) ::
          Event.write 0 (paddedSlice BLOCK_SIZE data len 0) BLOCK_SIZE (o (s.calls + 1)) ::
          Event.trigger TriggerCmd.START (o (s.calls + 2)) :: rest) := by
      simp [i2s_send_data, hidle, h1, h2, h3, hout, andThen, hb, MIN_eq_min]
    obtain ⟨i1, i2, i3, i4⟩ := send_loop_start_placement BLOCK_SIZE data len _ _ _ _ _ _ hout
    refine ⟨r, s', _, rest, hrun, rfl, i2s_send_data_within_tx_block hlen hrun,
      start_follows_retry i1 i2 i3, ?_,
      send_loop_start_count BLOCK_SIZE data len _ _ _ _ _ _ hout⟩
    intro pre e k b z w post hc hw
    exact i4 e k b z w post ⟨pre, hc.symm⟩ hw

/-- C6 (witness): the amended statement on a 3-block send made while Idle whose write of
the 2nd block returns `-EIO` once. -/
theorem i2s_send_data_idle_start_count_witness :
    ∃ r s' evs rest, i2s_send_data (fun n => if n = 4 then -5 else 0) 4
        [1, 2, 3, 4, 5, 6, 7, 8, 9, 10] 10 { i2s_running := false, calls := 0 } =
        some (r, s', evs) ∧
      evs = Event.alloc 0 0 :: Event.copy 0 0 4 :: Event.write 0 [1, 2, 3, 4] 4 0 ::
          Event.trigger TriggerCmd.START 0 :: rest ∧
      (∀ i ∈ indicesOf evs, i < NUM_BLOCKS) ∧
      (∀ pre q post, rest = pre ++ Event.trigger TriggerCmd.START q :: post →
        ∃ pre2 e k b z w,
          pre = pre2 ++ [Event.trigger TriggerCmd.PREPARE e, Event.write k b z w] ∧
          0 ≤ e ∧ 0 ≤ w) ∧
      (∀ pre e k b z w post,
        rest = pre ++ Event.trigger TriggerCmd.PREPARE e :: Event.write k b z w :: post →
        0 ≤ w → ∃ q post2, post = Event.trigger TriggerCmd.START q :: post2) ∧
      triggerCount TriggerCmd.START rest = retriedOk rest :=
  i2s_send_data_idle_start_count (fun n => if n = 4 then -5 else 0) 4
    [1, 2, 3, 4, 5, 6, 7, 8, 9, 10] 10 { i2s_running := false, calls := 0 }
    (by decide) (by decide) rfl (by decide) (by decide)

/-! ## C7 -/

/-- C7: whatever the prior state and whatever the DRAIN trigger and the recover attempt
return, `i2s_running` is false after `i2s_drain_tx`. -/
theorem i2s_drain_tx_idle (o : Nat → Int) (s : State) :
    (i2s_drain_tx o s).2.1.i2s_running = false := by
  simp only [i2s_drain_tx]
  split_ifs <;> rfl

/-! ## C8 -/

/-- C8: for a positive `BLOCK_SIZE`, a call made while Idle returns, and: if the allocation
fails, or the first write fails, or the START trigger fails, the call returns that call's
code, its events end with the failing call (no further block is submitted) and
`i2s_running` stays false; and `i2s_running` is true on return exactly when the events
start with the allocation, the copy, a first write that succeeded and a START trigger
that succeeded. -/
theorem i2s_send_data_idle_failure (o : Nat → Int) (BLOCK_SIZE : Nat) (data : List Byte)
    (len : Nat) (s : State) (hBS : 0 < BLOCK_SIZE) (hidle : s.i2s_running = false) :
    ∃ r s' evs, i2s_send_data o BLOCK_SIZE data len s = some (r, s', evs) ∧
      (o s.calls < 0 →
        r = o s.calls ∧ evs = [Event.alloc 0 (o s.calls)] ∧ s'.i2s_running = false) ∧
      (0 ≤ o s.calls → o (s.calls + 1) < 0 →
        r = o (s.calls + 1) ∧
        evs = [Event.alloc 0 (o s.calls), Event.copy 0 0 (min len BLOCK_SIZE),
          Event.write 0 (paddedSlice BLOCK_SIZE data len 0) BLOCK_SIZE (o (s.calls + 1))] ∧
        s'.i2s_running = false) ∧
      (0 ≤ o s.calls → 0 ≤ o (s.calls + 1) → o (s.calls + 2) < 0 →
        r = o (s.calls + 2) ∧
        evs = [Event.alloc 0 (o s.calls), Event.copy 0 0 (min len BLOCK_SIZE),
          Event.write 0 (paddedSlice BLOCK_SIZE data len 0) BLOCK_SIZE (o (s.calls + 1)),
          Event.trigger TriggerCmd.START (o (s.calls + 2))] ∧
        s'.i2s_running = false) ∧
      (s'.i2s_running = true ↔
        ∃ a n b w q rest,
          evs = Event.alloc 0 a :: Event.copy 0 0 n :: Event.write 0 b BLOCK_SIZE w ::
            Event.trigger TriggerCmd.START q :: rest ∧ 0 ≤ w ∧ 0 ≤ q) := by
  have hb : memcpy (memset BLOCK_SIZE) data (MIN len BLOCK_SIZE) =
      paddedSlice BLOCK_SIZE data len 0 := by
    rw [fill_zero, fill_eq_paddedSlice]
  obtain ⟨⟨r, s', evs⟩, hrun⟩ := i2s_send_data_returns (o := o) hBS data len s
  refine ⟨r, s', evs, hrun, ?_⟩
  unfold i2s_send_data at hrun
  rw [if_pos hidle] at hrun
  split_ifs at hrun with h1 h2 h3
  · simp only [Option.some.injEq, Prod.mk.injEq] at hrun
    obtain ⟨rfl, rfl, rfl⟩ := hrun
    refine ⟨fun _ => ⟨rfl, rfl, hidle⟩, fun h => absurd h1 (not_lt.2 h),
      fun h => absurd h1 (not_lt.2 h), ?_⟩
    simp [State.tick, hidle]
  · simp only [Option.some.injEq, Prod.mk.injEq] at hrun
    obtain ⟨rfl, rfl, rfl⟩ := hrun
    refine ⟨fun h => absurd h h1, fun _ _ => ⟨rfl, ?_, hidle⟩,
      fun _ h => absurd h2 (not_lt.2 h), ?_⟩
    · rw [hb, MIN_eq_min]
    · simp [State.tick, hidle]
  · simp only [Option.some.injEq, Prod.mk.injEq] at hrun
    obtain ⟨rfl, rfl, rfl⟩ := hrun
    refine ⟨fun h => absurd h h1, fun _ h => absurd h h2, fun _ _ _ => ⟨rfl, ?_, hidle⟩, ?_⟩
    · rw [hb, MIN_eq_min]; rfl
    · simp only [State.tick, hidle, Bool.false_eq_true, false_iff, not_exists, not_and]
      intro a n b w q rest hev _ hq
      simp only [List.cons_append, List.nil_append, List.cons.injEq, Event.trigger.injEq,
        true_and] at hev
      obtain ⟨-, -, -, hq', -⟩ := hev
      rw [← hq'] at hq
      exact absurd hq (not_le.2 h3)
  · obtain ⟨rest, hrest, rfl⟩ := andThen_eq_some.1 hrun
    have hr := send_loop_running BLOCK_SIZE data len _ _ _ _ _ _ hrest
    refine ⟨fun h => absurd h h1, fun _ h => absurd h h2, fun _ _ h => absurd h h3, ?_⟩
    simp only [hr, true_iff]
    exact ⟨_, _, _, _, _, _, rfl, not_lt.1 h2, not_lt.1 h3⟩

/-- C8 (witness): a call made while Idle (`BLOCK_SIZE = 4`, `len = 10`) whose START
trigger returns `-5`. -/
theorem i2s_send_data_idle_failure_witness :
    ∃ s', i2s_send_data (fun n => if n = 2 then -5 else 0) 4
        [1, 2, 3, 4, 5, 6, 7, 8, 9, 10] 10 { i2s_running := false, calls := 0 } =
      some (-5, s', [Event.alloc 0 0, Event.copy 0 0 4, Event.write 0 [1, 2, 3, 4] 4 0,
        Event.trigger TriggerCmd.START (-5)]) ∧ s'.i2s_running = false := by
  obtain ⟨r, s', evs, hrun, -, -, h3, -⟩ := i2s_send_data_idle_failure
    (fun n => if n = 2 then -5 else 0) 4 [1, 2, 3, 4, 5, 6, 7, 8, 9, 10] 10
    { i2s_running := false, calls := 0 } (by decide) rfl
  obtain ⟨hr, hev, hs⟩ := h3 (by decide) (by decide) (by decide)
  have hr2 : r = -5 := hr.trans (by decide)
  have hev2 : evs = [Event.alloc 0 0, Event.copy 0 0 4, Event.write 0 [1, 2, 3, 4] 4 0,
      Event.trigger TriggerCmd.START (-5)] := hev.trans (by decide)
  refine ⟨s', ?_, hs⟩
  rw [hrun, hr2, hev2]

theorem send_loop_content {o : Nat → Int} (BS : Nat) (data : List Byte) (len : Nat) :
    ∀ (fuel idx : Nat) (s : State) (r : Int) (s' : State) (evs : List Event),
      send_loop o BS data len fuel idx s = some (r, s', evs) →
      ∀ k buf size ret, Event.write k buf size ret ∈ evs → buf = fill BS data len k := by
  intro fuel
  induction fuel with
  | zero => intro idx s r s' evs h; simp [send_loop] at h
  | succ fuel ih =>
    intro idx s r s' evs h k buf size ret hmem
    simp only [send_loop] at h
    split_ifs at h with hg h1 h2 h3 h4 h5 h6
    all_goals first
      | (simp only [Option.some.injEq, Prod.mk.injEq] at h
         obtain ⟨-, -, rfl⟩ := h
         simp at hmem
         try (rcases hmem with ⟨rfl, rfl, -⟩ | ⟨rfl, rfl, -⟩ <;> rfl)
         try (obtain ⟨rfl, rfl, -⟩ := hmem; rfl))
      | (obtain ⟨rest, hrest, rfl⟩ := andThen_eq_some.1 h
         simp at hmem
         first
           | (rcases hmem with ⟨rfl, rfl, -⟩ | ⟨rfl, rfl, -⟩ | hm
              · rfl
              · rfl
              · exact ih _ _ _ _ _ hrest _ _ _ _ hm)
           | (rcases hmem with ⟨rfl, rfl, -⟩ | hm
              · rfl
              · exact ih _ _ _ _ _ hrest _ _ _ _ hm))

/-! ## C9 -/

/-- C9 (code at the failing input): with `BLOCK_SIZE = 1` and `len = 11`, every call
succeeding, the block handed to `i2s_write` for the 11th block is read back from
`tx_block[10]`, and `10 = NUM_BLOCKS` is beyond the array. -/
theorem i2s_send_data_block_content_overrun :
    (i2s_send_data (fun _ => 0) 1 [1, 2, 3, 4, 5, 6, 7, 8, 9, 10, 11] 11
        { i2s_running := true, calls := 0 }).map
      (fun out => (writesOf out.2.2).filter (fun w => decide (NUM_BLOCKS ≤ w.1))) =
      some [(10, [11])] ∧ NUM_BLOCKS = 10 := by
  decide

/-- C9 (within the array): for a positive `BLOCK_SIZE`, `len ≤ NUM_BLOCKS * BLOCK_SIZE`
and `data` holding at least `len` bytes, `i2s_send_data` returns with every index below
`NUM_BLOCKS`, and whatever the external calls return, every block it hands to `i2s_write`
under index `k` holds exactly `BLOCK_SIZE` bytes: the payload slice
`data[k*BLOCK_SIZE .. k*BLOCK_SIZE + n)` of length `n = min (len - k*BLOCK_SIZE) BLOCK_SIZE`
followed by `BLOCK_SIZE - n` zero bytes. -/
theorem i2s_send_data_block_content (o : Nat → Int) (BLOCK_SIZE : Nat) (data : List Byte)
    (len : Nat) (s : State) (hBS : 0 < BLOCK_SIZE) (hbound : len ≤ NUM_BLOCKS * BLOCK_SIZE)
    (hdata : len ≤ data.length) :
    ∃ r s' evs, i2s_send_data o BLOCK_SIZE data len s = some (r, s', evs) ∧
      (∀ i ∈ indicesOf evs, i < NUM_BLOCKS) ∧
      ∀ k buf size ret, Event.write k buf size ret ∈ evs →
        buf.length = BLOCK_SIZE ∧
        (payloadSlice BLOCK_SIZE data len k).length = min (len - k * BLOCK_SIZE) BLOCK_SIZE ∧
        buf = payloadSlice BLOCK_SIZE data len k ++
          List.replicate (BLOCK_SIZE - min (len - k * BLOCK_SIZE) BLOCK_SIZE) 0 := by
  obtain ⟨⟨r, s', evs⟩, hrun⟩ := i2s_send_data_returns (o := o) hBS data len s
  refine ⟨r, s', evs, hrun, i2s_send_data_within_tx_block hbound hrun, ?_⟩
  intro k buf size ret hmem
  have key : buf = paddedSlice BLOCK_SIZE data len k := by
    rw [← fill_eq_paddedSlice]
    unfold i2s_send_data at hrun
    split_ifs at hrun with hidle h1 h2 h3
    · simp only [Option.some.injEq, Prod.mk.injEq] at hrun
      obtain ⟨-, -, rfl⟩ := hrun
      simp at hmem
    · simp only [Option.some.injEq, Prod.mk.injEq] at hrun
      obtain ⟨-, -, rfl⟩ := hrun
      simp at hmem
      obtain ⟨rfl, rfl, -⟩ := hmem
      exact fill_zero _ _ _
    · simp only [Option.some.injEq, Prod.mk.injEq] at hrun
      obtain ⟨-, -, rfl⟩ := hrun
      simp at hmem
      obtain ⟨rfl, rfl, -⟩ := hmem
      exact fill_zero _ _ _
    · obtain ⟨rest, hrest, rfl⟩ := andThen_eq_some.1 hrun
      simp at hmem
      rcases hmem with ⟨rfl, rfl, -⟩ | hm
      · exact fill_zero _ _ _
      · exact send_loop_content BLOCK_SIZE data len _ _ _ _ _ _ hrest _ _ _ _ hm
    · exact send_loop_content BLOCK_SIZE data len _ _ _ _ _ _ hrun _ _ _ _ hmem
  refine ⟨?_, payloadSlice_length hdata k, ?_⟩
  · rw [key, paddedSlice_length hdata]
  · rw [key]; rfl

/-- C9 (within the array, witness): the statement on a 3-block send (`BLOCK_SIZE = 4`, `len = 10`) whose
write of the 2nd block returns `-EIO` once. -/
theorem i2s_send_data_block_content_witness :
    ∃ r s' evs, i2s_send_data (fun n => if n = 4 then -5 else 0) 4
        [1, 2, 3, 4, 5, 6, 7, 8, 9, 10] 10 { i2s_running := false, calls := 0 } =
          some (r, s', evs) ∧
      (∀ i ∈ indicesOf evs, i < NUM_BLOCKS) ∧
      ∀ k buf size ret, Event.write k buf size ret ∈ evs →
        buf.length = 4 ∧
        (payloadSlice 4 [1, 2, 3, 4, 5, 6, 7, 8, 9, 10] 10 k).length = min (10 - k * 4) 4 ∧
        buf = payloadSlice 4 [1, 2, 3, 4, 5, 6, 7, 8, 9, 10] 10 k ++
          List.replicate (4 - min (10 - k * 4) 4) 0 :=
  i2s_send_data_block_content (fun n => if n = 4 then -5 else 0) 4
    [1, 2, 3, 4, 5, 6, 7, 8, 9, 10] 10 { i2s_running := false, calls := 0 }
    (by decide) (by decide) (by decide)

/-! ## C10 -/

/-- C10 (counterexample): with `BLOCK_SIZE = 64` and all calls succeeding, sending 150
bytes equal to `0x01` submits three blocks, the third holding 22 payload bytes followed by
42 zero bytes, which is not 22 payload bytes followed by 14 zero bytes. -/
theorem i2s_send_data_150_third_block :
    (i2s_send_data (fun _ => 0) 64 (List.replicate 150 1) 150
        { i2s_running := false, calls := 0 }).map (fun out => blocksOf out.2.2) =
      some [List.replicate 64 1, List.replicate 64 1,
        List.replicate 22 1 ++ List.replicate 42 0] ∧
    List.replicate 22 (1 : Byte) ++ List.replicate 42 0 ≠
      List.replicate 22 1 ++ List.replicate 14 0 := by
  decide

/-- C10 (amended): with `BLOCK_SIZE = 64` and all calls succeeding, `i2s_send_data` on
150 bytes equal to `0x01` with `len = 150` returns `0` and submits exactly 3 blocks: two
blocks of 64 payload bytes each, then a block with the 22 payload bytes 128-149 followed
by 42 zero bytes. -/
theorem i2s_send_data_150 (o : Nat → Int) (s : State) (hok : ∀ n, 0 ≤ o n) :
    ∃ s' evs, i2s_send_data o 64 (List.replicate 150 1) 150 s = some (0, s', evs) ∧
      blocksOf evs = [List.replicate 64 1, List.replicate 64 1,
        List.replicate 22 1 ++ List.replicate 42 0] := by
  obtain ⟨s', evs, hrun, hw⟩ :=
    @i2s_send_data_clean o 64 (by decide) hok (List.replicate 150 1) 150 s
  refine ⟨s', evs, hrun, ?_⟩
  rw [blocksOf_of_writesOf hw]
  have h3 : blockCount s.i2s_running 150 64 = 3 := by
    cases s.i2s_running <;> decide
  rw [h3]
  decide

/-- C10 (witness): the amended statement with every call returning `0`, from Active. -/
theorem i2s_send_data_150_witness :
    ∃ s' evs, i2s_send_data (fun _ => 0) 64 (List.replicate 150 1) 150
        { i2s_running := true, calls := 0 } = some (0, s', evs) ∧
      blocksOf evs = [List.replicate 64 1, List.replicate 64 1,
        List.replicate 22 1 ++ List.replicate 42 0] :=
  i2s_send_data_150 (fun _ => 0) { i2s_running := true, calls := 0 } (fun _ => le_refl 0)

theorem i2s_drain_tx_idle_state (o : Nat → Int) (s : State) :
    (i2s_drain_tx o s).2.1.i2s_running = false := by
  simp only [i2s_drain_tx]
  split_ifs <;> rfl

theorem i2s_data_handler_idle_timeouts (o : Nat → Int) (BS : Nat) (s : State)
    (hidle : s.i2s_running = false) :
    ∀ m, i2s_data_handler o BS (List.replicate m Poll.timeout) s = some (s, []) := by
  intro m
  induction m with
  | zero => rfl
  | succ m ih =>
    simp only [List.replicate_succ, i2s_data_handler, hidle, Bool.false_eq_true, if_false]
    exact ih

/-! ## C11 -/

/-- C11: in `i2s_data_handler`, a poll timeout while `i2s_running` is set, followed by any
number `m` of further timeouts with no message in between, performs exactly the events of
one `i2s_drain_tx` call: one `DRAIN` trigger and no `i2s_write`; `i2s_running` is false
afterwards, and from that state any number of timeouts performs no event at all. -/
theorem i2s_data_handler_timeout_drains_once (o : Nat → Int) (BLOCK_SIZE : Nat) (s : State)
    (m : Nat) (hactive : s.i2s_running = true) :
    ∃ s' evs, i2s_data_handler o BLOCK_SIZE (List.replicate (m + 1) Poll.timeout) s =
        some (s', evs) ∧
      evs = (i2s_drain_tx o s).2.2 ∧
      triggerCount TriggerCmd.DRAIN evs = 1 ∧ writesOf evs = [] ∧
      triggerCount TriggerCmd.START evs = 0 ∧
      s'.i2s_running = false ∧
      ∀ j, i2s_data_handler o BLOCK_SIZE (List.replicate j Poll.timeout) s' = some (s', []) := by
  have hd := i2s_drain_tx_idle_state o s
  refine ⟨(i2s_drain_tx o s).2.1, (i2s_drain_tx o s).2.2, ?_, rfl, ?_, ?_, ?_, hd,
    i2s_data_handler_idle_timeouts o BLOCK_SIZE _ hd⟩
  · simp only [List.replicate_succ, i2s_data_handler, hactive, if_true]
    rw [i2s_data_handler_idle_timeouts o BLOCK_SIZE _ hd m]
    simp
  all_goals
    simp only [i2s_drain_tx, i2s_recover]
    split_ifs <;> rfl

/-- C11 (witness): an Active stream, a `DRAIN` trigger that returns `-5`, and three
consecutive timeouts. -/
theorem i2s_data_handler_timeout_drains_once_witness :
    ∃ s' evs, i2s_data_handler (fun n => if n = 0 then -5 else 0) 4
        (List.replicate (2 + 1) Poll.timeout) { i2s_running := true, calls := 0 } =
        some (s', evs) ∧
      evs = (i2s_drain_tx (fun n => if n = 0 then -5 else 0)
        { i2s_running := true, calls := 0 }).2.2 ∧
      triggerCount TriggerCmd.DRAIN evs = 1 ∧ writesOf evs = [] ∧
      triggerCount TriggerCmd.START evs = 0 ∧
      s'.i2s_running = false ∧
      ∀ j, i2s_data_handler (fun n => if n = 0 then -5 else 0) 4
        (List.replicate j Poll.timeout) s' = some (s', []) :=
  i2s_data_handler_timeout_drains_once (fun n => if n = 0 then -5 else 0) 4
    { i2s_running := true, calls := 0 } 2 rfl

/-! ## C12 -/

/-- C12 (code at the failing input): with `BLOCK_SIZE = 4`, `len = 10` and every call
succeeding, the write of the final block is submitted with size `2`, in both starting
states; and a 2-byte payload is submitted with size `4` by the Idle first-block path but
with size `2` by the loop. -/
theorem i2s_send_data_final_block_size :
    (i2s_send_data (fun _ => 0) 4 [1, 2, 3, 4, 5, 6, 7, 8, 9, 10] 10
        { i2s_running := true, calls := 0 }).map (fun out => sizesOf out.2.2) =
      some [4, 4, 2] ∧
    (i2s_send_data (fun _ => 0) 4 [1, 2, 3, 4, 5, 6, 7, 8, 9, 10] 10
        { i2s_running := false, calls := 0 }).map (fun out => sizesOf out.2.2) =
      some [4, 4, 2] ∧
    (i2s_send_data (fun _ => 0) 4 [1, 2] 2
        { i2s_running := false, calls := 0 }).map (fun out => sizesOf out.2.2) = some [4] ∧
    (i2s_send_data (fun _ => 0) 4 [1, 2] 2
        { i2s_running := true, calls := 0 }).map (fun out => sizesOf out.2.2) = some [2] := by
  decide

/-! ## C13 -/

/-- C13 (counterexample): when the device is not ready `i2s_config` returns `-ENODEV`
and calls nothing, and `main` reports no result: it computes no return value. -/
theorem main_ignores_config_failure :
    i2s_config 64 false (fun _ => 0) = (-19, []) ∧
    main 64 false (fun _ => 0) = (none, []) := by
  decide

/-- C13 (amended): `main` passes to the driver what `i2s_config` passes, drops the value
`i2s_config` returns and computes no return value of its own, whether `i2s_config`
failed or not. -/
theorem main_result (BLOCK_SIZE : Nat) (device_is_ready : Bool)
    (i2s_configure : I2sConfig → Int) :
    (main BLOCK_SIZE device_is_ready i2s_configure).1 = none ∧
    (main BLOCK_SIZE device_is_ready i2s_configure).2 =
      (i2s_config BLOCK_SIZE device_is_ready i2s_configure).2 :=
  ⟨rfl, rfl⟩

/-! ## C14 -/

/-- C14: `i2s_config` returns a negative code exactly when the device is not ready or the
driver rejects the configuration.  When the device is not ready it returns `-ENODEV`
without calling `i2s_configure`; otherwise it calls `i2s_configure` exactly once, with
word size 16, 2 channels, frame clock 44100 Hz, block size `BLOCK_SIZE` and the
frame-clock-master and bit-clock-master options, and returns the driver's code when that
is negative and `0` when it is not. -/
theorem i2s_config_result (BLOCK_SIZE : Nat) (device_is_ready : Bool)
    (i2s_configure : I2sConfig → Int) (cfg : I2sConfig)
    (hcfg : cfg =
      { word_size := 16, channels := 2, format := I2sFormat.I2S_FMT_DATA_FORMAT_I2S,
        frame_clk_freq := 44100, block_size := BLOCK_SIZE,
        timeout := I2sTimeout.SYS_FOREVER_MS,
        options := [I2sOpt.I2S_OPT_FRAME_CLK_MASTER, I2sOpt.I2S_OPT_BIT_CLK_MASTER],
        mem_slab := SlabRef.tx_0_mem_slab }) :
    ((i2s_config BLOCK_SIZE device_is_ready i2s_configure).1 < 0 ↔
      (device_is_ready = false ∨ i2s_configure cfg < 0)) ∧
    (device_is_ready = false →
      i2s_config BLOCK_SIZE device_is_ready i2s_configure = (- ENODEV, [])) ∧
    (device_is_ready = true → i2s_configure cfg < 0 →
      i2s_config BLOCK_SIZE device_is_ready i2s_configure = (i2s_configure cfg, [cfg])) ∧
    (device_is_ready = true → 0 ≤ i2s_configure cfg →
      i2s_config BLOCK_SIZE device_is_ready i2s_configure = (0, [cfg])) := by
  subst hcfg
  cases device_is_ready with
  | false => simp [i2s_config, ENODEV]
  | true =>
    by_cases h : i2s_configure
        { word_size := 16, channels := 2, format := I2sFormat.I2S_FMT_DATA_FORMAT_I2S,
          frame_clk_freq := 44100, block_size := BLOCK_SIZE,
          timeout := I2sTimeout.SYS_FOREVER_MS,
          options := [I2sOpt.I2S_OPT_FRAME_CLK_MASTER, I2sOpt.I2S_OPT_BIT_CLK_MASTER],
          mem_slab := SlabRef.tx_0_mem_slab } < 0
    · simp [i2s_config, h]
    · simp [i2s_config, h, not_lt.1 h]

/-- C14 (witness): a ready device whose driver rejects the configuration with `-22`. -/
theorem i2s_config_result_witness :
    i2s_config 64 true (fun _ => -22) =
      (-22, [
        { word_size := 16, channels := 2, format := I2sFormat.I2S_FMT_DATA_FORMAT_I2S,
          frame_clk_freq := 44100, block_size := 64,
          timeout := I2sTimeout.SYS_FOREVER_MS,
          options := [I2sOpt.I2S_OPT_FRAME_CLK_MASTER, I2sOpt.I2S_OPT_BIT_CLK_MASTER],
          mem_slab := SlabRef.tx_0_mem_slab }]) :=
  (i2s_config_result 64 true (fun _ => -22) _ rfl).2.2.1 rfl (by decide)

/-! ## C16 -/

/-- C16 (code at the failing input): when the `DRAIN` trigger returns `0`, `i2s_drain_tx`
performs the trigger, clears `i2s_running` and reaches its closing brace without a
`return`: it yields no return value. -/
theorem i2s_drain_tx_no_return_value :
    i2s_drain_tx (fun _ => 0) { i2s_running := true, calls := 0 } =
      (none, { i2s_running := false, calls := 1 }, [Event.trigger TriggerCmd.DRAIN 0]) := by
  decide

theorem send_loop_clean_indices {o : Nat → Int} {BS : Nat} (data : List Byte)
    (len : Nat) :
    ∀ (fuel idx : Nat) (s : State) (r : Int) (s' : State) (evs : List Event),
      send_loop o BS data len fuel idx s = some (r, s', evs) → failuresOf evs = [] →
      ∀ i, i ∈ indicesOf evs ↔ idx ≤ i ∧ BS * i < len := by
  intro fuel
  induction fuel with
  | zero => intro idx s r s' evs h; simp [send_loop] at h
  | succ fuel ih =>
    intro idx s r s' evs h hf i
    simp only [send_loop] at h
    split_ifs at h with hg h1 h2 h3 h4 h5 h6
    · simp only [Option.some.injEq, Prod.mk.injEq] at h
      obtain ⟨-, -, rfl⟩ := h
      simp [failuresOf, Event.failed, Event.ret?, h1] at hf
    · simp only [Option.some.injEq, Prod.mk.injEq] at h
      obtain ⟨-, -, rfl⟩ := h
      simp [failuresOf, Event.failed, Event.ret?, h1, h2, h3, EIO] at hf
    · simp only [Option.some.injEq, Prod.mk.injEq] at h
      obtain ⟨-, -, rfl⟩ := h
      simp [failuresOf, Event.failed, Event.ret?, h1, h2, h3, EIO] at hf
    · simp only [Option.some.injEq, Prod.mk.injEq] at h
      obtain ⟨-, -, rfl⟩ := h
      simp [failuresOf, Event.failed, Event.ret?, h1, h2, h3, EIO] at hf
    · obtain ⟨rest, -, rfl⟩ := andThen_eq_some.1 h
      simp [failuresOf, Event.failed, Event.ret?, h1, h2, h3, EIO] at hf
    · simp only [Option.some.injEq, Prod.mk.injEq] at h
      obtain ⟨-, -, rfl⟩ := h
      simp [failuresOf, Event.failed, Event.ret?, h1, h6] at hf
    · obtain ⟨rest, hrest, rfl⟩ := andThen_eq_some.1 h
      have hf' : failuresOf rest = [] := by
        simpa [failuresOf, Event.failed, Event.ret?, h1, h6] using hf
      have hi := ih _ _ _ _ _ hrest hf' i
      simp only [indicesOf] at hi
      simp only [indicesOf, List.cons_append, List.nil_append, List.filterMap_cons,
        Event.idx?, List.mem_cons, hi]
      constructor
      · rintro (rfl | rfl | rfl | ⟨h1, h2⟩)
        · exact ⟨le_refl _, hg⟩
        · exact ⟨le_refl _, hg⟩
        · exact ⟨le_refl _, hg⟩
        · exact ⟨by omega, h2⟩
      · rintro ⟨h1, h2⟩
        by_cases he : i = idx
        · exact Or.inl he
        · exact Or.inr (Or.inr (Or.inr ⟨by omega, h2⟩))
    · simp only [Option.some.injEq, Prod.mk.injEq] at h
      obtain ⟨-, -, rfl⟩ := h
      simp only [indicesOf, List.filterMap_nil, List.not_mem_nil, false_iff, not_and, not_lt]
      intro hle
      have := Nat.mul_le_mul_left BS hle
      omega

/-! ## C17 -/

/-- C17: when `BLOCK_SIZE` is positive and every allocation and driver call succeeds,
`i2s_send_data` returns `0`, and every index with which it accesses `tx_block` is below
`NUM_BLOCKS` if and only if `len ≤ NUM_BLOCKS * BLOCK_SIZE`. -/
theorem i2s_send_data_index_bound (o : Nat → Int) (BLOCK_SIZE : Nat) (data : List Byte)
    (len : Nat) (s : State) (hBS : 0 < BLOCK_SIZE) (hok : ∀ n, 0 ≤ o n) :
    ∃ s' evs, i2s_send_data o BLOCK_SIZE data len s = some (0, s', evs) ∧
      ((∀ i ∈ indicesOf evs, i < NUM_BLOCKS) ↔ len ≤ NUM_BLOCKS * BLOCK_SIZE) := by
  have hn : ∀ n, ¬ o n < 0 := fun n => not_lt.2 (hok n)
  have key : ∀ (lo : Nat), lo ≤ 1 →
      ((∀ i, lo ≤ i ∧ BLOCK_SIZE * i < len → i < NUM_BLOCKS) ↔
        len ≤ NUM_BLOCKS * BLOCK_SIZE) := by
    intro lo hlo
    simp only [NUM_BLOCKS]
    constructor
    · intro h
      by_contra hc
      have := h 10 ⟨by omega, by omega⟩
      omega
    · intro h i hi
      by_contra hc
      have := Nat.mul_le_mul_left BLOCK_SIZE (not_lt.1 hc)
      omega
  cases hrun : s.i2s_running with
  | false =>
    obtain ⟨⟨r, s', rest⟩, hout⟩ := send_loop_returns (o := o) hBS data len (len + 1) 1
      { i2s_running := true, calls := s.calls + 3 } (by omega)
    have hf := send_loop_no_failures hok BLOCK_SIZE data len _ _ _ _ _ _ hout
    obtain ⟨rfl, -, -, -⟩ := send_loop_clean hBS data len _ _ _ _ _ _ hout hf
    have hi := send_loop_clean_indices data len _ _ _ _ _ _ hout hf
    refine ⟨s', [Event.alloc 0 (o s.calls), Event.copy 0 0 (MIN len BLOCK_SIZE),
      Event.write 0 (memcpy (memset BLOCK_SIZE) data (MIN len BLOCK_SIZE)) BLOCK_SIZE
        (o (s.calls + 1)),
      Event.trigger TriggerCmd.START (o (s.calls + 2))] ++ rest, ?_, ?_⟩
    · simp [i2s_send_data, hrun, hn, hout, andThen]
    · rw [← key 1 (le_refl 1)]
      simp only [indicesOf] at hi
      simp only [indicesOf, List.cons_append, List.nil_append, List.filterMap_cons,
        Event.idx?, List.mem_cons, hi]
      constructor
      · intro h i hi2
        exact h i (Or.inr (Or.inr (Or.inr hi2)))
      · rintro h i (rfl | rfl | rfl | hi2)
        · simp [NUM_BLOCKS]
        · simp [NUM_BLOCKS]
        · simp [NUM_BLOCKS]
        · exact h i hi2
  | true =>
    obtain ⟨⟨r, s', rest⟩, hout⟩ := send_loop_returns (o := o) hBS data len (len + 1) 0 s
      (by omega)
    have hf := send_loop_no_failures hok BLOCK_SIZE data len _ _ _ _ _ _ hout
    obtain ⟨rfl, -, -, -⟩ := send_loop_clean hBS data len _ _ _ _ _ _ hout hf
    have hi := send_loop_clean_indices data len _ _ _ _ _ _ hout hf
    refine ⟨s', rest, ?_, ?_⟩
    · simp [i2s_send_data, hrun, hout]
    · rw [← key 0 (by omega)]
      constructor
      · intro h i hi2
        exact h i ((hi i).2 hi2)
      · intro h i hi2
        exact h i ((hi i).1 hi2)

/-- C17 (witness): with `BLOCK_SIZE = 1` and `len = 11` the call made while Active uses
the indices `0 .. 10`, and `11 > NUM_BLOCKS * 1`. -/
theorem i2s_send_data_index_bound_witness :
    ∃ s' evs, i2s_send_data (fun _ => 0) 1 [1, 2, 3, 4, 5, 6, 7, 8, 9, 10, 11] 11
        { i2s_running := true, calls := 0 } = some (0, s', evs) ∧
      ((∀ i ∈ indicesOf evs, i < NUM_BLOCKS) ↔ 11 ≤ NUM_BLOCKS * 1) :=
  i2s_send_data_index_bound (fun _ => 0) 1 [1, 2, 3, 4, 5, 6, 7, 8, 9, 10, 11] 11
    { i2s_running := true, calls := 0 } (by decide) (fun _ => le_refl 0)

theorem endsDropping_cons {e : Event} (he : e.dropsBlock = false) (rest : List Event) :
    endsDropping (e :: rest) = endsDropping rest := by
  cases rest with
  | nil => simp [endsDropping, he]
  | cons a l => simp [endsDropping]

theorem send_loop_blocks_held {o : Nat → Int} (BS : Nat) (data : List Byte) (len : Nat) :
    ∀ (fuel idx : Nat) (s : State) (r : Int) (s' : State) (evs : List Event),
      send_loop o BS data len fuel idx s = some (r, s', evs) →
      okAllocs evs = okWrites evs + (if endsDropping evs = true then 1 else 0) ∧
      (endsDropping evs = true → r < 0) := by
  intro fuel
  induction fuel with
  | zero => intro idx s r s' evs h; simp [send_loop] at h
  | succ fuel ih =>
    intro idx s r s' evs h
    simp only [send_loop] at h
    split_ifs at h with hg h1 h2 h3 h4 h5 h6
    · simp only [Option.some.injEq, Prod.mk.injEq] at h
      obtain ⟨rfl, -, rfl⟩ := h
      have h1' : ¬ 0 ≤ o s.calls := not_le.2 h1
      simp [okAllocs, okWrites, endsDropping, Event.allocOk, Event.writeOk,
        Event.dropsBlock, h1']
    · simp only [Option.some.injEq, Prod.mk.injEq] at h
      obtain ⟨rfl, -, rfl⟩ := h
      have h1' : 0 ≤ o s.calls := not_lt.1 h1
      simp [okAllocs, okWrites, endsDropping, Event.allocOk, Event.writeOk,
        Event.dropsBlock, h1', h2, h3, EIO]
    · simp only [Option.some.injEq, Prod.mk.injEq] at h
      obtain ⟨rfl, -, rfl⟩ := h
      have h1' : 0 ≤ o s.calls := not_lt.1 h1
      have h4' : ¬ 0 ≤ o (s.calls + 3) := not_le.2 h4
      simp [okAllocs, okWrites, endsDropping, Event.allocOk, Event.writeOk,
        Event.dropsBlock, h1', h2, h4, h4', EIO]
    · simp only [Option.some.injEq, Prod.mk.injEq] at h
      obtain ⟨rfl, -, rfl⟩ := h
      have h1' : 0 ≤ o s.calls := not_lt.1 h1
      have h4' : 0 ≤ o (s.calls + 3) := not_lt.1 h4
      simp [okAllocs, okWrites, endsDropping, Event.allocOk, Event.writeOk,
        Event.dropsBlock, h1', h2, h4', EIO]
    · obtain ⟨rest, hrest, rfl⟩ := andThen_eq_some.1 h
      obtain ⟨ih1, ih2⟩ := ih _ _ _ _ _ hrest
      have h1' : 0 ≤ o s.calls := not_lt.1 h1
      have h4' : 0 ≤ o (s.calls + 3) := not_lt.1 h4
      have hd : endsDropping
          ([Event.alloc idx (o s.calls),
            Event.copy idx (BS * idx) (MIN (len - idx * BS) BS),
            Event.write idx (fill BS data len idx) (MIN (len - idx * BS) BS)
              (o (s.calls + 1))] ++
           [Event.trigger TriggerCmd.PREPARE (o (s.calls + 2)),
            Event.write idx (fill BS data len idx) (MIN (len - idx * BS) BS)
              (o (s.calls + 3)),
            Event.trigger TriggerCmd.START (o (s.calls + 4))] ++ rest) =
          endsDropping rest := by
        simp only [List.cons_append, List.nil_append]
        rw [endsDropping, endsDropping, endsDropping, endsDropping, endsDropping]
        simp only [List.isEmpty_cons, Bool.false_eq_true, if_false]
        exact endsDropping_cons (by simp [Event.dropsBlock]) rest
      rw [hd]
      refine ⟨?_, ih2⟩
      simp only [okAllocs, okWrites] at ih1
      simp [okAllocs, okWrites, Event.allocOk, Event.writeOk, h1', h2, h4', EIO, ih1]
      omega
    · simp only [Option.some.injEq, Prod.mk.injEq] at h
      obtain ⟨rfl, -, rfl⟩ := h
      have h1' : 0 ≤ o s.calls := not_lt.1 h1
      have h6' : ¬ 0 ≤ o (s.calls + 1) := not_le.2 h6
      simp [okAllocs, okWrites, endsDropping, Event.allocOk, Event.writeOk,
        Event.dropsBlock, h1', h6, h6']
    · obtain ⟨rest, hrest, rfl⟩ := andThen_eq_some.1 h
      obtain ⟨ih1, ih2⟩ := ih _ _ _ _ _ hrest
      have h1' : 0 ≤ o s.calls := not_lt.1 h1
      have h6' : 0 ≤ o (s.calls + 1) := not_lt.1 h6
      have hd : endsDropping
          ([Event.alloc idx (o s.calls),
            Event.copy idx (BS * idx) (MIN (len - idx * BS) BS),
            Event.write idx (fill BS data len idx) (MIN (len - idx * BS) BS)
              (o (s.calls + 1))] ++ rest) = endsDropping rest := by
        simp only [List.cons_append, List.nil_append]
        rw [endsDropping, endsDropping]
        simp only [List.isEmpty_cons, Bool.false_eq_true, if_false]
        exact endsDropping_cons (by simp [Event.dropsBlock, h6]) rest
      rw [hd]
      refine ⟨?_, ih2⟩
      simp only [okAllocs, okWrites] at ih1
      simp [okAllocs, okWrites, Event.allocOk, Event.writeOk, h1', h6', ih1]
      omega
    · simp only [Option.some.injEq, Prod.mk.injEq] at h
      obtain ⟨rfl, -, rfl⟩ := h
      simp [okAllocs, okWrites, endsDropping]

/-! ## C18 -/

/-- C18 (counterexample): a call made while Idle whose first write returns `-5`: one block
was allocated, no write succeeded, and `i2s_send_data` returns `-5`. -/
theorem i2s_send_data_block_left_behind :
    (i2s_send_data (fun n => if n = 1 then -5 else 0) 4 [1, 2, 3, 4, 5, 6] 6
        { i2s_running := false, calls := 0 }).map
      (fun out => (out.1, okAllocs out.2.2, okWrites out.2.2)) = some (-5, 1, 0) := by
  decide

/-- C18 (amended): for a positive `BLOCK_SIZE` and `len ≤ NUM_BLOCKS * BLOCK_SIZE`,
`i2s_send_data` returns with every index below `NUM_BLOCKS`, and the number of blocks it
allocated equals the number of blocks accepted by a successful `i2s_write`, plus one when
the last call it made is a write that failed or a recover that failed; the two numbers
are equal whenever it returns `0`. -/
theorem i2s_send_data_blocks_held (o : Nat → Int) (BLOCK_SIZE : Nat) (data : List Byte)
    (len : Nat) (s : State) (hBS : 0 < BLOCK_SIZE) (hbound : len ≤ NUM_BLOCKS * BLOCK_SIZE) :
    ∃ r s' evs, i2s_send_data o BLOCK_SIZE data len s = some (r, s', evs) ∧
      (∀ i ∈ indicesOf evs, i < NUM_BLOCKS) ∧
      okAllocs evs = okWrites evs + (if endsDropping evs = true then 1 else 0) ∧
      (r = 0 → okAllocs evs = okWrites evs) := by
  obtain ⟨⟨r, s', evs⟩, hrun⟩ := i2s_send_data_returns (o := o) hBS data len s
  refine ⟨r, s', evs, hrun, i2s_send_data_within_tx_block hbound hrun, ?_⟩
  have key : okAllocs evs = okWrites evs + (if endsDropping evs = true then 1 else 0) ∧
      (endsDropping evs = true → r < 0) := by
    unfold i2s_send_data at hrun
    split_ifs at hrun with hidle h1 h2 h3
    · simp only [Option.some.injEq, Prod.mk.injEq] at hrun
      obtain ⟨rfl, -, rfl⟩ := hrun
      have h1' : ¬ 0 ≤ o s.calls := not_le.2 h1
      simp [okAllocs, okWrites, endsDropping, Event.allocOk, Event.writeOk,
        Event.dropsBlock, h1']
    · simp only [Option.some.injEq, Prod.mk.injEq] at hrun
      obtain ⟨rfl, -, rfl⟩ := hrun
      have h1' : 0 ≤ o s.calls := not_lt.1 h1
      have h2' : ¬ 0 ≤ o (s.calls + 1) := not_le.2 h2
      simp [okAllocs, okWrites, endsDropping, Event.allocOk, Event.writeOk,
        Event.dropsBlock, h1', h2, h2']
    · simp only [Option.some.injEq, Prod.mk.injEq] at hrun
      obtain ⟨rfl, -, rfl⟩ := hrun
      have h1' : 0 ≤ o s.calls := not_lt.1 h1
      have h2' : 0 ≤ o (s.calls + 1) := not_lt.1 h2
      simp [okAllocs, okWrites, endsDropping, Event.allocOk, Event.writeOk,
        Event.dropsBlock, h1', h2']
    · obtain ⟨rest, hrest, rfl⟩ := andThen_eq_some.1 hrun
      obtain ⟨l1, l2⟩ := send_loop_blocks_held BLOCK_SIZE data len _ _ _ _ _ _ hrest
      have h1' : 0 ≤ o s.calls := not_lt.1 h1
      have h2' : 0 ≤ o (s.calls + 1) := not_lt.1 h2
      have hd : endsDropping
          ([Event.alloc 0 (o s.calls), Event.copy 0 0 (MIN len BLOCK_SIZE),
            Event.write 0 (memcpy (memset BLOCK_SIZE) data (MIN len BLOCK_SIZE)) BLOCK_SIZE
              (o (s.calls + 1))] ++
           [Event.trigger TriggerCmd.START (o (s.calls + 2))] ++ rest) =
          endsDropping rest := by
        simp only [List.cons_append, List.nil_append]
        rw [endsDropping, endsDropping, endsDropping]
        simp only [List.isEmpty_cons, Bool.false_eq_true, if_false]
        exact endsDropping_cons (by simp [Event.dropsBlock]) rest
      rw [hd]
      refine ⟨?_, l2⟩
      simp only [okAllocs, okWrites] at l1
      simp [okAllocs, okWrites, Event.allocOk, Event.writeOk, h1', h2', l1]
      omega
    · exact send_loop_blocks_held BLOCK_SIZE data len _ _ _ _ _ _ hrun
  refine ⟨key.1, ?_⟩
  intro hr
  have hnd : ¬ endsDropping evs = true := by
    intro hd
    have := key.2 hd
    omega
  rw [key.1, if_neg hnd]
  rfl

/-- C18 (witness): the amended statement on a 3-block send whose retried write of the 2nd
block fails. -/
theorem i2s_send_data_blocks_held_witness :
    ∃ r s' evs, i2s_send_data (fun n => if n = 4 then -5 else if n = 6 then -22 else 0) 4
        [1, 2, 3, 4, 5, 6, 7, 8, 9, 10] 10 { i2s_running := false, calls := 0 } =
        some (r, s', evs) ∧
      (∀ i ∈ indicesOf evs, i < NUM_BLOCKS) ∧
      okAllocs evs = okWrites evs + (if endsDropping evs = true then 1 else 0) ∧
      (r = 0 → okAllocs evs = okWrites evs) :=
  i2s_send_data_blocks_held (fun n => if n = 4 then -5 else if n = 6 then -22 else 0) 4
    [1, 2, 3, 4, 5, 6, 7, 8, 9, 10] 10 { i2s_running := false, calls := 0 } (by decide)
    (by decide)

theorem send_loop_copies {o : Nat → Int} (BS : Nat) (data : List Byte) (len : Nat) :
    ∀ (fuel idx : Nat) (s : State) (r : Int) (s' : State) (evs : List Event),
      send_loop o BS data len fuel idx s = some (r, s', evs) →
      ∀ k off n, Event.copy k off n ∈ evs →
        off = BS * k ∧ BS * k < len ∧ n = min (len - k * BS) BS := by
  intro fuel
  induction fuel with
  | zero => intro idx s r s' evs h; simp [send_loop] at h
  | succ fuel ih =>
    intro idx s r s' evs h k off n hmem
    simp only [send_loop] at h
    split_ifs at h with hg h1 h2 h3 h4 h5 h6
    all_goals first
      | (simp only [Option.some.injEq, Prod.mk.injEq] at h
         obtain ⟨-, -, rfl⟩ := h
         simp at hmem
         try (obtain ⟨rfl, rfl, rfl⟩ := hmem; exact ⟨rfl, hg, MIN_eq_min _ _⟩))
      | (obtain ⟨rest, hrest, rfl⟩ := andThen_eq_some.1 h
         simp at hmem
         rcases hmem with ⟨rfl, rfl, rfl⟩ | hm
         · exact ⟨rfl, hg, MIN_eq_min _ _⟩
         · exact ih _ _ _ _ _ hrest _ _ _ hm)

/-! ## C19 -/

/-- C19 (code at the failing input): with `BLOCK_SIZE = 2` and `len = 22`, every call
succeeding, the copy for the 11th block writes through the handle read back from
`tx_block[10]`, and `10 = NUM_BLOCKS` is beyond the array. -/
theorem i2s_send_data_copy_bounds_overrun :
    (i2s_send_data (fun _ => 0) 2
        [1, 2, 3, 4, 5, 6, 7, 8, 9, 10, 11, 12, 13, 14, 15, 16, 17, 18, 19, 20, 21, 22] 22
        { i2s_running := false, calls := 0 }).map
      (fun out => out.2.2.drop 31) =
      some [Event.alloc 10 0, Event.copy 10 20 2, Event.write 10 [21, 22] 2 0] ∧
    NUM_BLOCKS = 10 := by
  decide

/-- C19 (within the array): for a positive `BLOCK_SIZE` and
`len ≤ NUM_BLOCKS * BLOCK_SIZE`, `i2s_send_data` returns with every index below
`NUM_BLOCKS`, and whatever the external
calls return, every `memcpy` it performs reads `n` bytes of `data` from offset `off` with
`off + n ≤ len` and `n ≤ BLOCK_SIZE`; every copy made in the block loop (every copy of a
call made while Active, every copy with index at least `1` otherwise) has
`idx * BLOCK_SIZE < len`, so that `len - idx * BLOCK_SIZE` is positive, and its length
`min (len - idx * BLOCK_SIZE) BLOCK_SIZE` is at least `1`. -/
theorem i2s_send_data_copy_bounds (o : Nat → Int) (BLOCK_SIZE : Nat) (data : List Byte)
    (len : Nat) (s : State) (hBS : 0 < BLOCK_SIZE) (hbound : len ≤ NUM_BLOCKS * BLOCK_SIZE) :
    ∃ r s' evs, i2s_send_data o BLOCK_SIZE data len s = some (r, s', evs) ∧
      (∀ i ∈ indicesOf evs, i < NUM_BLOCKS) ∧
      ∀ idx off n, Event.copy idx off n ∈ evs →
        off + n ≤ len ∧ n ≤ BLOCK_SIZE ∧
        ((s.i2s_running = true ∨ 1 ≤ idx) →
          idx * BLOCK_SIZE < len ∧ n = min (len - idx * BLOCK_SIZE) BLOCK_SIZE ∧ 1 ≤ n) := by
  obtain ⟨⟨r, s', evs⟩, hrun⟩ := i2s_send_data_returns (o := o) hBS data len s
  refine ⟨r, s', evs, hrun, i2s_send_data_within_tx_block hbound hrun, ?_⟩
  intro idx off n hmem
  have loopCase : (off = BLOCK_SIZE * idx ∧ BLOCK_SIZE * idx < len ∧
      n = min (len - idx * BLOCK_SIZE) BLOCK_SIZE) →
      off + n ≤ len ∧ n ≤ BLOCK_SIZE ∧
        ((s.i2s_running = true ∨ 1 ≤ idx) →
          idx * BLOCK_SIZE < len ∧ n = min (len - idx * BLOCK_SIZE) BLOCK_SIZE ∧ 1 ≤ n) := by
    rintro ⟨h1, h2, h3⟩
    have hc : idx * BLOCK_SIZE = BLOCK_SIZE * idx := Nat.mul_comm _ _
    rw [hc] at h3 ⊢
    refine ⟨by omega, by omega, fun _ => ⟨h2, h3, by omega⟩⟩
  have idleCase : s.i2s_running = false → idx = 0 ∧ off = 0 ∧ n = MIN len BLOCK_SIZE →
      off + n ≤ len ∧ n ≤ BLOCK_SIZE ∧
        ((s.i2s_running = true ∨ 1 ≤ idx) →
          idx * BLOCK_SIZE < len ∧ n = min (len - idx * BLOCK_SIZE) BLOCK_SIZE ∧ 1 ≤ n) := by
    rintro hidle ⟨rfl, rfl, rfl⟩
    rw [MIN_eq_min]
    refine ⟨by omega, by omega, ?_⟩
    rintro (h | h)
    · rw [hidle] at h; exact absurd h (by decide)
    · omega
  unfold i2s_send_data at hrun
  split_ifs at hrun with hidle h1 h2 h3
  · simp only [Option.some.injEq, Prod.mk.injEq] at hrun
    obtain ⟨-, -, rfl⟩ := hrun
    simp at hmem
  · simp only [Option.some.injEq, Prod.mk.injEq] at hrun
    obtain ⟨-, -, rfl⟩ := hrun
    simp at hmem
    exact idleCase hidle hmem
  · simp only [Option.some.injEq, Prod.mk.injEq] at hrun
    obtain ⟨-, -, rfl⟩ := hrun
    simp at hmem
    exact idleCase hidle hmem
  · obtain ⟨rest, hrest, rfl⟩ := andThen_eq_some.1 hrun
    simp at hmem
    rcases hmem with hm | hm
    · exact idleCase hidle hm
    · exact loopCase (send_loop_copies BLOCK_SIZE data len _ _ _ _ _ _ hrest _ _ _ hm)
  · exact loopCase (send_loop_copies BLOCK_SIZE data len _ _ _ _ _ _ hrun _ _ _ hmem)

/-- C19 (within the array, witness): the statement on a 3-block send (`BLOCK_SIZE = 4`, `len = 10`, Idle)
whose write of the 2nd block returns `-EIO` once. -/
theorem i2s_send_data_copy_bounds_witness :
    ∃ r s' evs, i2s_send_data (fun n => if n = 4 then -5 else 0) 4
        [1, 2, 3, 4, 5, 6, 7, 8, 9, 10] 10 { i2s_running := false, calls := 0 } =
        some (r, s', evs) ∧
      (∀ i ∈ indicesOf evs, i < NUM_BLOCKS) ∧
      ∀ idx off n, Event.copy idx off n ∈ evs →
        off + n ≤ 10 ∧ n ≤ 4 ∧
        ((({ i2s_running := false, calls := 0 } : State).i2s_running = true ∨ 1 ≤ idx) →
          idx * 4 < 10 ∧ n = min (10 - idx * 4) 4 ∧ 1 ≤ n) :=
  i2s_send_data_copy_bounds (fun n => if n = 4 then -5 else 0) 4
    [1, 2, 3, 4, 5, 6, 7, 8, 9, 10] 10 { i2s_running := false, calls := 0 } (by decide)
    (by decide)
end I2S
